import Mathlib

/-!
Shallow embedding of the phosphor-messaging dispatch engine (src/index.ts).

Handlers and filters are identified by natural numbers; their user-supplied
behaviour (`processMessage`, `compressMessage`, `filterMessage`) is given by
environments `env : HandlerId → HandlerSpec` and `fenv : FilterId → FilterSpec`.
The mutable module state (the WeakMap of dispatchers, the global dispatch
queue with its `null` sentinel, and the animation-frame id) is an explicit
`SysState` threaded through every operation.  A handler's `processMessage`
may throw (`Except.error`) or perform re-entrant `postMessage` calls; a
filter may throw, and may call `removeMessageFilter(handler, self)` from
inside its own `filterMessage` (the `removesSelf` flag).

The filter chain of a dispatcher is the singly-linked list of the source,
represented as the list of links reachable from the head, each link a pair
of a unique node id and its (possibly tombstoned) filter.  A filter run
walks the snapshot of node ids taken when the walk starts and re-reads the
current chain at every step, which models the heap behaviour of the source:
a link tombstoned or spliced out during the walk is skipped, links behind
the walker keep their successors' order.

Instrumentation fields of `SysState` record observable events:
`delivered` logs every `processMessage` invocation, `filterTrace` every
`filterMessage` invocation, `compressTrace` every actual call of a
handler's `compressMessage`.
-/

deriving instance DecidableEq for Except

namespace Phosphor

abbrev HandlerId := Nat
abbrev FilterId := Nat
abbrev Err := String

/-- A message; only its `type` string is inspected by the engine
(mirrors the `Message` class, whose single field is `_type`). -/
structure Message where
  type : String
deriving DecidableEq, Repr

/-- User-code behaviour of a message handler: `onProcess` models
`processMessage` (it may throw, or perform a list of re-entrant
`postMessage` calls); `compress` models the optional `compressMessage`
capability (`none` = not implemented). -/
structure HandlerSpec where
  onProcess : Message → Except Err (List (HandlerId × Message))
  compress : Option (Message → List Message → Bool)

/-- User-code behaviour of a message filter: `result` models the value
returned (or error thrown) by `filterMessage`; `removesSelf` is true for a
filter that calls `removeMessageFilter(handler, self)` from inside its own
`filterMessage` before returning. -/
structure FilterSpec where
  result : HandlerId → Message → Except Err Bool
  removesSelf : Bool

/-- Per-handler dispatch state (class `MessageDispatcher`): the filter
chain (reachable links, head first, each `(node id, filter or tombstone)`)
and the pending message queue (front first). -/
structure MessageDispatcher where
  filters : List (Nat × Option FilterId)
  messages : List Message
deriving DecidableEq, Repr

/-- The module-level mutable state of src/index.ts plus instrumentation
traces.  `dispatchQueue` holds `some h` for a real handler and `none` for
the `null` sentinel; `frameId` is true when a wake-up callback is armed;
`nextLink` supplies fresh filter-link node ids. -/
structure SysState where
  dispatchers : List (HandlerId × MessageDispatcher)
  dispatchQueue : List (Option HandlerId)
  frameId : Bool
  nextLink : Nat
  delivered : List (HandlerId × Message)
  filterTrace : List (FilterId × HandlerId × Message)
  compressTrace : List (HandlerId × Message)
deriving DecidableEq, Repr

/-- Association-list lookup for the dispatcher map. -/
def lookupD : List (HandlerId × MessageDispatcher) → HandlerId → Option MessageDispatcher
  | [], _ => none
  | (k, v) :: rest, h => if k = h then some v else lookupD rest h

/-- Association-list update/insert for the dispatcher map. -/
def setD : List (HandlerId × MessageDispatcher) → HandlerId → MessageDispatcher →
    List (HandlerId × MessageDispatcher)
  | [], h, d => [(h, d)]
  | (k, v) :: rest, h, d => if k = h then (k, d) :: rest else (k, v) :: setD rest h d

/-- The dispatcher of a handler, defaulting to a fresh empty one. -/
def dispOf (s : SysState) (h : HandlerId) : MessageDispatcher :=
  (lookupD s.dispatchers h).getD ⟨[], []⟩

/-- Store a dispatcher for a handler. -/
def putDisp (s : SysState) (h : HandlerId) (d : MessageDispatcher) : SysState :=
  { s with dispatchers := setD s.dispatchers h d }

/-- The pending message queue of a handler (empty when no dispatcher). -/
def pendingOf (s : SysState) (h : HandlerId) : List Message :=
  (dispOf s h).messages

/-- The filter chain of a handler (empty when no dispatcher). -/
def chainOf (s : SysState) (h : HandlerId) : List (Nat × Option FilterId) :=
  (dispOf s h).filters

/-- The non-tombstoned filters of a handler's chain, in walk order. -/
def liveChain (s : SysState) (h : HandlerId) : List FilterId :=
  (chainOf s h).filterMap (·.2)

/-- `getDispatcher`: create the dispatcher for a handler if absent. -/
def ensureDispatcher (s : SysState) (h : HandlerId) : SysState :=
  match lookupD s.dispatchers h with
  | some _ => s
  | none => putDisp s h ⟨[], []⟩

/-- `wakeUpMessageLoop`: arm the wake-up unless one is armed already or the
dispatch queue is empty. -/
def wakeUpMessageLoopS (s : SysState) : SysState :=
  if s.frameId = false ∧ s.dispatchQueue ≠ [] then { s with frameId := true } else s

/-- Look up a filter link by node id in a chain. -/
def lookupChain : List (Nat × Option FilterId) → Nat → Option (Option FilterId)
  | [], _ => none
  | (i, f) :: rest, n => if i = n then some f else lookupChain rest n

/-- `installMessageFilter`: prepend a fresh link for the filter. -/
def installMessageFilterS (h : HandlerId) (f : FilterId) (s : SysState) : SysState :=
  let s1 := ensureDispatcher s h
  let d := dispOf s1 h
  let s2 := putDisp s1 h { d with filters := (s1.nextLink, some f) :: d.filters }
  { s2 with nextLink := s2.nextLink + 1 }

/-- `removeMessageFilter`: every link holding the filter is tombstoned and
spliced out of the reachable chain; other links (tombstones included) are
kept in order. -/
def removeMessageFilterS (h : HandlerId) (f : FilterId) (s : SysState) : SysState :=
  let s1 := ensureDispatcher s h
  let d := dispOf s1 h
  putDisp s1 h { d with filters := d.filters.filter (fun p => p.2 != some f) }

/-- `clearMessageData`: clear the dispatcher (if present) and purge the
handler's entries from the global dispatch queue. -/
def clearMessageDataS (h : HandlerId) (s : SysState) : SysState :=
  let s1 := match lookupD s.dispatchers h with
    | some _ => putDisp s h ⟨[], []⟩
    | none => s
  { s1 with dispatchQueue := s1.dispatchQueue.filter (fun e => e != some h) }

/-- `MessageDispatcher._compressMessage`: returns false when the handler has
no `compressMessage` or nothing is pending, otherwise consults the
handler's `compressMessage` (recorded in `compressTrace`). -/
def compressMessageS (env : HandlerId → HandlerSpec) (h : HandlerId) (msg : Message)
    (s : SysState) : Bool × SysState :=
  match (env h).compress with
  | none => (false, s)
  | some cf =>
    if pendingOf s h = [] then (false, s)
    else (cf msg (pendingOf s h), { s with compressTrace := s.compressTrace ++ [(h, msg)] })

/-- `MessageDispatcher._enqueueMessage`: append the message, record the
handler in the global dispatch queue, wake up the loop. -/
def enqueueMessageS (h : HandlerId) (msg : Message) (s : SysState) : SysState :=
  let d := dispOf s h
  let s1 := putDisp s h { d with messages := d.messages ++ [msg] }
  let s2 := { s1 with dispatchQueue := s1.dispatchQueue ++ [some h] }
  wakeUpMessageLoopS s2

/-- `postMessage`: compress if possible, otherwise enqueue. -/
def postMessageS (env : HandlerId → HandlerSpec) (h : HandlerId) (msg : Message)
    (s : SysState) : SysState :=
  let s1 := ensureDispatcher s h
  match compressMessageS env h msg s1 with
  | (true, s2) => s2
  | (false, s2) => enqueueMessageS h msg s2

/-- Perform the re-entrant `postMessage` calls issued by a handler's
`processMessage`, in order. -/
def doPosts (env : HandlerId → HandlerSpec) :
    List (HandlerId × Message) → SysState → SysState
  | [], s => s
  | (h, m) :: rest, s => doPosts env rest (postMessageS env h m s)

/-- The state effect of invoking one live filter: record the invocation
and, for a self-removing filter, remove it from the handler's chain. -/
def filterStep (fenv : FilterId → FilterSpec) (h : HandlerId) (msg : Message) (f : FilterId)
    (s : SysState) : SysState :=
  let s1 := { s with filterTrace := s.filterTrace ++ [(f, h, msg)] }
  if (fenv f).removesSelf then removeMessageFilterS h f s1 else s1

/-- `MessageDispatcher._filterMessage`: walk the snapshot of link node ids,
re-reading the current chain at each link; invoke live filters (recording
them in `filterTrace`), perform a self-removal when the filter does one,
stop on the first `true` result or thrown error; tombstoned or spliced
links are skipped. -/
def runFilters (fenv : FilterId → FilterSpec) (h : HandlerId) (msg : Message) :
    List Nat → SysState → Except Err Bool × SysState
  | [], s => (.ok false, s)
  | n :: rest, s =>
    match lookupChain (chainOf s h) n with
    | some (some f) =>
      match (fenv f).result h msg with
      | .error e => (.error e, filterStep fenv h msg f s)
      | .ok true => (.ok true, filterStep fenv h msg f s)
      | .ok false => runFilters fenv h msg rest (filterStep fenv h msg f s)
    | _ => runFilters fenv h msg rest s

/-- `sendMessage`: run the filter chain; if not suppressed, invoke the
handler's `processMessage` (recorded in `delivered`), which may throw or
perform re-entrant posts. -/
def sendMessageS (env : HandlerId → HandlerSpec) (fenv : FilterId → FilterSpec)
    (h : HandlerId) (msg : Message) (s : SysState) : Except Err Unit × SysState :=
  let s1 := ensureDispatcher s h
  match runFilters fenv h msg ((chainOf s1 h).map (·.1)) s1 with
  | (.error e, s2) => (.error e, s2)
  | (.ok true, s2) => (.ok (), s2)
  | (.ok false, s2) =>
    let s3 := { s2 with delivered := s2.delivered ++ [(h, msg)] }
    match (env h).onProcess msg with
    | .error e => (.error e, s3)
    | .ok posts => (.ok (), doPosts env posts s3)

/-- `sendPendingMessage`: pop the oldest pending message (before the filter
chain runs) and deliver it via `sendMessage`; no-op when nothing pends. -/
def sendPendingMessageS (env : HandlerId → HandlerSpec) (fenv : FilterId → FilterSpec)
    (h : HandlerId) (s : SysState) : Except Err Unit × SysState :=
  let s1 := ensureDispatcher s h
  match pendingOf s1 h with
  | [] => (.ok (), s1)
  | m :: rest =>
    let s2 := putDisp s1 h { dispOf s1 h with messages := rest }
    sendMessageS env fenv h m s2

/-- `dispatchMessage(dispatcherMap.get(handler), handler)`: an absent
dispatcher makes `dispatcher.sendPendingMessage` throw a TypeError; any
error re-arms the wake-up before propagating. -/
def dispatchMessageS (env : HandlerId → HandlerSpec) (fenv : FilterId → FilterSpec)
    (h : HandlerId) (s : SysState) : Except Err Unit × SysState :=
  match lookupD s.dispatchers h with
  | none => (.error "TypeError", wakeUpMessageLoopS s)
  | some _ =>
    match sendPendingMessageS env fenv h s with
    | (.error e, s1) => (.error e, wakeUpMessageLoopS s1)
    | (.ok _, s1) => (.ok (), s1)

/-- The `while` loop of `runMessageLoop`, fuel-bounded: pop the front of
the dispatch queue; a sentinel ends the cycle (after re-arming when more
work pends); a handler is dispatched, an error aborting the loop. -/
def runLoop (env : HandlerId → HandlerSpec) (fenv : FilterId → FilterSpec) :
    Nat → SysState → Except Err Unit × SysState
  | 0, s => (.ok (), s)
  | fuel + 1, s =>
    match s.dispatchQueue with
    | [] => (.ok (), s)
    | none :: rest => (.ok (), wakeUpMessageLoopS { s with dispatchQueue := rest })
    | some h :: rest =>
      match dispatchMessageS env fenv h { s with dispatchQueue := rest } with
      | (.error e, s1) => (.error e, s1)
      | (.ok _, s1) => runLoop env fenv fuel s1

/-- Clear the frame id and push the sentinel at the back of the dispatch
queue unless the queue already ends in one (the `frameId = void 0` and
sentinel-push of `runMessageLoop`). -/
def sentinelled (s : SysState) : SysState :=
  let s1 := { s with frameId := false }
  if s1.dispatchQueue.getLast? = some none then s1
  else { s1 with dispatchQueue := s1.dispatchQueue ++ [none] }

/-- `runMessageLoop`: clear the frame id, return if nothing pends, push the
sentinel unless the queue already ends in one, then run the dispatch loop.
The fuel (the queue length at entry) always suffices: the loop stops at the
first sentinel, and re-entrant pushes land behind it. -/
def runMessageLoopS (env : HandlerId → HandlerSpec) (fenv : FilterId → FilterSpec)
    (s : SysState) : Except Err Unit × SysState :=
  if s.dispatchQueue = [] then (.ok (), { s with frameId := false })
  else runLoop env fenv (sentinelled s).dispatchQueue.length (sentinelled s)

/-- Post a list of messages, in order, through `postMessage`. -/
def postAll (env : HandlerId → HandlerSpec) :
    List (HandlerId × Message) → SysState → SysState
  | [], s => s
  | (h, m) :: rest, s => postAll env rest (postMessageS env h m s)

/-- The pristine module state at load time. -/
def initState : SysState :=
  ⟨[], [], false, 0, [], [], []⟩

/-- A handler with no state of interest: `processMessage` returns without
doing anything, `compressMessage` is not implemented. -/
def plainSpec : HandlerSpec :=
  ⟨fun _ => .ok [], none⟩

/-- An environment of plain handlers. -/
def plainEnv : HandlerId → HandlerSpec := fun _ => plainSpec

/-- A filter environment in which every filter passes every message. -/
def trivFenv : FilterId → FilterSpec := fun _ => ⟨fun _ _ => .ok false, false⟩

/-- A state is clean when no dispatcher exists and nothing is queued. -/
def Clean (s : SysState) : Prop :=
  s.dispatchers = [] ∧ s.dispatchQueue = []

/-- A handler spec is plain: no compression, and `processMessage` neither
throws nor posts. -/
def PlainH (hs : HandlerSpec) : Prop :=
  hs.compress = none ∧ ∀ m, hs.onProcess m = .ok []

/-- The pure meaning of one filter-chain walk over a fixed list of live
filters, with the list of invoked filters: stop on the first `true` or
error. -/
def pureWalk (fenv : FilterId → FilterSpec) (h : HandlerId) (m : Message) :
    List FilterId → Except Err Bool × List FilterId
  | [] => (.ok false, [])
  | f :: rest =>
    match (fenv f).result h m with
    | .error e => (.error e, [f])
    | .ok true => (.ok true, [f])
    | .ok false =>
      let r := pureWalk fenv h m rest
      (r.1, f :: r.2)

/-- An install or remove operation on the filters of one handler. -/
inductive FilterOp where
  | ins (f : FilterId)
  | rem (f : FilterId)
deriving DecidableEq, Repr

/-- The filter an operation concerns. -/
def FilterOp.fid : FilterOp → FilterId
  | .ins f => f
  | .rem f => f

/-- Apply one filter operation to the state. -/
def applyFilterOp (h : HandlerId) : FilterOp → SysState → SysState
  | .ins f, s => installMessageFilterS h f s
  | .rem f, s => removeMessageFilterS h f s

/-- Apply a sequence of filter operations, left to right. -/
def applyFilterOps (h : HandlerId) : List FilterOp → SysState → SysState
  | [], s => s
  | op :: rest, s => applyFilterOps h rest (applyFilterOp h op s)

/-- Well-formedness of a handler's filter chain: link node ids are distinct
and below the fresh-id counter (guaranteed for every state built by the
operations; needed because link identity stands in for heap identity). -/
def WFc (s : SysState) (h : HandlerId) : Prop :=
  ((chainOf s h).map (·.1)).Nodup ∧ ∀ p ∈ chainOf s h, p.1 < s.nextLink

/-- The sequence of filter ids a synchronous send invokes, in invocation
order: the send's extension of the filter trace, projected to filter ids. -/
def filterRunOrder (env : HandlerId → HandlerSpec) (fenv : FilterId → FilterSpec)
    (h : HandlerId) (m : Message) (s : SysState) : List FilterId :=
  ((sendMessageS env fenv h m s).2.filterTrace.drop s.filterTrace.length).map (·.1)

/-- The state reached by installing F1 then F2 for a handler and then
applying an arbitrary sequence of further install/remove operations. -/
def mruState (h : HandlerId) (F1 F2 : FilterId) (ops : List FilterOp)
    (s0 : SysState) : SysState :=
  applyFilterOps h ops (installMessageFilterS h F2 (installMessageFilterS h F1 s0))

/-- The interleaved posts of the reference global-ordering scenario. -/
def c1Posts : List (HandlerId × Message) :=
  [(3, ⟨"one"⟩), (1, ⟨"two"⟩), (2, ⟨"three"⟩), (1, ⟨"A"⟩), (2, ⟨"B"⟩), (3, ⟨"C"⟩)]

/-- A handler whose `compressMessage` returns true exactly when a pending
message of the same type exists (the premise of the compression claim). -/
def fullCompressSpec : HandlerSpec :=
  ⟨fun _ => .ok [], some (fun m pending => pending.any (fun p => p.type == m.type))⟩

/-- Environment in which every handler compresses same-type duplicates. -/
def fullCompressEnv : HandlerId → HandlerSpec := fun _ => fullCompressSpec

/-- A handler compressing a posted message exactly when its type is `one`
or `three` and a same-type message pends (the `CompressHandler` of the
repository's test suite, with `compressTypes = ['one', 'three']`). -/
def testCompressSpec : HandlerSpec :=
  ⟨fun _ => .ok [],
   some (fun m pending =>
     (m.type == "one" || m.type == "three") && pending.any (fun p => p.type == m.type))⟩

/-- Environment of `testCompressSpec` handlers. -/
def testCompressEnv : HandlerId → HandlerSpec := fun _ => testCompressSpec

/-- The nine posts of the compression scenario. -/
def ninePosts : List (HandlerId × Message) :=
  [(0, ⟨"one"⟩), (0, ⟨"two"⟩), (0, ⟨"three"⟩), (0, ⟨"one"⟩), (0, ⟨"two"⟩),
   (0, ⟨"three"⟩), (0, ⟨"one"⟩), (0, ⟨"two"⟩), (0, ⟨"three"⟩)]

/-- Environment for the re-entrancy scenario: handler 0 reacts to a message
of type `m2` by posting a message of type `m3` to itself. -/
def c2Env : HandlerId → HandlerSpec :=
  fun _ => ⟨fun m => if m.type = "m2" then .ok [(0, ⟨"m3"⟩)] else .ok [], none⟩

/-- Re-entrancy scenario start state: post `m1` and `m2` to handler 0, then
drain one message by hand with the public `sendPendingMessage`, leaving the
dispatch queue with two entries for handler 0 but only `m2` pending. -/
def c2Start : SysState :=
  (sendPendingMessageS c2Env trivFenv 0
    (postMessageS c2Env 0 ⟨"m2"⟩ (postMessageS c2Env 0 ⟨"m1"⟩ initState))).2

/-- Environment for the error scenario: handler 1 throws `boom` from
`processMessage`; every other handler is plain. -/
def c3Env : HandlerId → HandlerSpec :=
  fun h => if h = 1 then ⟨fun _ => .error "boom", none⟩ else plainSpec

/-- Error scenario start state: a message pends for the throwing handler 1
and another for the plain handler 2. -/
def c3Start : SysState :=
  postAll c3Env [(1, ⟨"bad"⟩), (2, ⟨"good"⟩)] initState

/-- A state in which handler 5 sits in the dispatch queue with no registry
entry, followed by handler 2 which has a pending message. -/
def c4State : SysState :=
  ⟨[(2, ⟨[], [⟨"good"⟩]⟩)], [some 5, some 2], false, 0, [], [], []⟩

/-- Filter environment for the self-removal scenario: every filter passes
every message; filter 2 removes itself from inside `filterMessage`. -/
def c6Fenv : FilterId → FilterSpec :=
  fun f => ⟨fun _ _ => .ok false, f == 2⟩

/-- Self-removal scenario state: filters 1, 2, 3 installed on handler 0 in
that order, so the walk order is 3, 2, 1. -/
def c6State : SysState :=
  installMessageFilterS 0 3 (installMessageFilterS 0 2 (installMessageFilterS 0 1 initState))

/-- Filter environment for the ordering scenario: all filters pass all
messages and none removes itself. -/
def c7Fenv : FilterId → FilterSpec :=
  fun _ => ⟨fun _ _ => .ok false, false⟩

/-- Filter operations of the ordering witness: install filter 3, then
remove it again, leaving filters 2 and 1. -/
def c7Ops : List FilterOp := [.ins 3, .rem 3]

/-- Filter environment suppressing every message (for the pop-before-filter
witness). -/
def suppressFenv : FilterId → FilterSpec := fun _ => ⟨fun _ _ => .ok true, false⟩

/-- Pop-before-filter witness state: a suppressing filter installed on
handler 0 and one pending message. -/
def c10State : SysState :=
  installMessageFilterS 0 4 (postAll plainEnv [(0, ⟨"z"⟩)] initState)

/-! ### Basic lemmas on the dispatcher map and state accessors -/

@[simp]
theorem lookupD_setD_self (l : List (HandlerId × MessageDispatcher)) (h : HandlerId)
    (d : MessageDispatcher) : lookupD (setD l h d) h = some d := by
  induction l with
  | nil => simp [setD, lookupD]
  | cons p rest ih =>
    by_cases hk : p.1 = h
    · simp [setD, lookupD, hk]
    · simp [setD, lookupD, hk, ih]

@[simp]
theorem lookupD_setD_ne (l : List (HandlerId × MessageDispatcher)) {h h' : HandlerId}
    (d : MessageDispatcher) (hne : h' ≠ h) : lookupD (setD l h d) h' = lookupD l h' := by
  have hne' : h ≠ h' := Ne.symm hne
  induction l with
  | nil => simp [setD, lookupD, hne']
  | cons p rest ih =>
    by_cases hk : p.1 = h
    · subst hk
      simp [setD, lookupD, hne']
    · simp [setD, lookupD, hk, ih]

@[simp] theorem putDisp_dispatchers (s : SysState) (h : HandlerId) (d : MessageDispatcher) :
    (putDisp s h d).dispatchers = setD s.dispatchers h d := rfl

@[simp] theorem putDisp_dispatchQueue (s : SysState) (h : HandlerId) (d : MessageDispatcher) :
    (putDisp s h d).dispatchQueue = s.dispatchQueue := rfl

@[simp] theorem putDisp_frameId (s : SysState) (h : HandlerId) (d : MessageDispatcher) :
    (putDisp s h d).frameId = s.frameId := rfl

@[simp] theorem putDisp_nextLink (s : SysState) (h : HandlerId) (d : MessageDispatcher) :
    (putDisp s h d).nextLink = s.nextLink := rfl

@[simp] theorem putDisp_delivered (s : SysState) (h : HandlerId) (d : MessageDispatcher) :
    (putDisp s h d).delivered = s.delivered := rfl

@[simp] theorem putDisp_filterTrace (s : SysState) (h : HandlerId) (d : MessageDispatcher) :
    (putDisp s h d).filterTrace = s.filterTrace := rfl

@[simp] theorem putDisp_compressTrace (s : SysState) (h : HandlerId) (d : MessageDispatcher) :
    (putDisp s h d).compressTrace = s.compressTrace := rfl

@[simp] theorem pendingOf_putDisp_self (s : SysState) (h : HandlerId) (d : MessageDispatcher) :
    pendingOf (putDisp s h d) h = d.messages := by
  simp [pendingOf, dispOf, putDisp]

@[simp] theorem pendingOf_putDisp_ne (s : SysState) {h h' : HandlerId} (d : MessageDispatcher)
    (hne : h' ≠ h) : pendingOf (putDisp s h d) h' = pendingOf s h' := by
  simp [pendingOf, dispOf, putDisp, lookupD_setD_ne _ _ hne]

@[simp] theorem chainOf_putDisp_self (s : SysState) (h : HandlerId) (d : MessageDispatcher) :
    chainOf (putDisp s h d) h = d.filters := by
  simp [chainOf, dispOf, putDisp]

@[simp] theorem chainOf_putDisp_ne (s : SysState) {h h' : HandlerId} (d : MessageDispatcher)
    (hne : h' ≠ h) : chainOf (putDisp s h d) h' = chainOf s h' := by
  simp [chainOf, dispOf, putDisp, lookupD_setD_ne _ _ hne]

theorem ensureDispatcher_of_isSome {s : SysState} {h : HandlerId}
    (hs : (lookupD s.dispatchers h).isSome) : ensureDispatcher s h = s := by
  unfold ensureDispatcher
  cases hl : lookupD s.dispatchers h with
  | none => rw [hl] at hs; simp at hs
  | some d => rfl

@[simp] theorem ensure_dispatchQueue (s : SysState) (h : HandlerId) :
    (ensureDispatcher s h).dispatchQueue = s.dispatchQueue := by
  unfold ensureDispatcher; split <;> rfl

@[simp] theorem ensure_frameId (s : SysState) (h : HandlerId) :
    (ensureDispatcher s h).frameId = s.frameId := by
  unfold ensureDispatcher; split <;> rfl

@[simp] theorem ensure_nextLink (s : SysState) (h : HandlerId) :
    (ensureDispatcher s h).nextLink = s.nextLink := by
  unfold ensureDispatcher; split <;> rfl

@[simp] theorem ensure_delivered (s : SysState) (h : HandlerId) :
    (ensureDispatcher s h).delivered = s.delivered := by
  unfold ensureDispatcher; split <;> rfl

@[simp] theorem ensure_filterTrace (s : SysState) (h : HandlerId) :
    (ensureDispatcher s h).filterTrace = s.filterTrace := by
  unfold ensureDispatcher; split <;> rfl

@[simp] theorem ensure_compressTrace (s : SysState) (h : HandlerId) :
    (ensureDispatcher s h).compressTrace = s.compressTrace := by
  unfold ensureDispatcher; split <;> rfl

@[simp] theorem lookupD_ensure_self (s : SysState) (h : HandlerId) :
    lookupD (ensureDispatcher s h).dispatchers h = some (dispOf s h) := by
  unfold ensureDispatcher
  cases hl : lookupD s.dispatchers h with
  | none => simp [putDisp, dispOf, hl]
  | some d => simp [dispOf, hl]

theorem lookupD_ensure_ne (s : SysState) {h h' : HandlerId} (hne : h' ≠ h) :
    lookupD (ensureDispatcher s h).dispatchers h' = lookupD s.dispatchers h' := by
  unfold ensureDispatcher
  cases hl : lookupD s.dispatchers h with
  | none => simp [putDisp, lookupD_setD_ne _ _ hne]
  | some d => rfl

@[simp] theorem pendingOf_ensure (s : SysState) (h h' : HandlerId) :
    pendingOf (ensureDispatcher s h) h' = pendingOf s h' := by
  by_cases hne : h' = h
  · subst hne
    simp [pendingOf, dispOf]
  · simp [pendingOf, dispOf, lookupD_ensure_ne s hne]

@[simp] theorem chainOf_ensure (s : SysState) (h h' : HandlerId) :
    chainOf (ensureDispatcher s h) h' = chainOf s h' := by
  by_cases hne : h' = h
  · subst hne
    simp [chainOf, dispOf]
  · simp [chainOf, dispOf, lookupD_ensure_ne s hne]

@[simp] theorem wakeUp_dispatchers (s : SysState) :
    (wakeUpMessageLoopS s).dispatchers = s.dispatchers := by
  unfold wakeUpMessageLoopS; split <;> rfl

@[simp] theorem wakeUp_dispatchQueue (s : SysState) :
    (wakeUpMessageLoopS s).dispatchQueue = s.dispatchQueue := by
  unfold wakeUpMessageLoopS; split <;> rfl

@[simp] theorem wakeUp_delivered (s : SysState) :
    (wakeUpMessageLoopS s).delivered = s.delivered := by
  unfold wakeUpMessageLoopS; split <;> rfl

@[simp] theorem wakeUp_filterTrace (s : SysState) :
    (wakeUpMessageLoopS s).filterTrace = s.filterTrace := by
  unfold wakeUpMessageLoopS; split <;> rfl

@[simp] theorem wakeUp_compressTrace (s : SysState) :
    (wakeUpMessageLoopS s).compressTrace = s.compressTrace := by
  unfold wakeUpMessageLoopS; split <;> rfl

@[simp] theorem wakeUp_nextLink (s : SysState) :
    (wakeUpMessageLoopS s).nextLink = s.nextLink := by
  unfold wakeUpMessageLoopS; split <;> rfl

@[simp] theorem pendingOf_wakeUp (s : SysState) (h : HandlerId) :
    pendingOf (wakeUpMessageLoopS s) h = pendingOf s h := by
  simp [pendingOf, dispOf]

@[simp] theorem chainOf_wakeUp (s : SysState) (h : HandlerId) :
    chainOf (wakeUpMessageLoopS s) h = chainOf s h := by
  simp [chainOf, dispOf]

theorem wakeUp_frameId_of_ne_nil {s : SysState} (hq : s.dispatchQueue ≠ []) :
    (wakeUpMessageLoopS s).frameId = true := by
  unfold wakeUpMessageLoopS
  cases hf : s.frameId with
  | true => simp [hf]
  | false => simp [hf, hq]

theorem wakeUp_frameId_mono {s : SysState} (hf : s.frameId = true) :
    (wakeUpMessageLoopS s).frameId = true := by
  unfold wakeUpMessageLoopS
  simp [hf]

/-! ### Effects of the per-operation state transformers -/

theorem compress_snd_queue (env : HandlerId → HandlerSpec) (h : HandlerId) (m : Message)
    (s : SysState) : (compressMessageS env h m s).2.dispatchQueue = s.dispatchQueue := by
  unfold compressMessageS
  split
  · rfl
  · split <;> rfl

theorem compress_snd_dispatchers (env : HandlerId → HandlerSpec) (h : HandlerId) (m : Message)
    (s : SysState) : (compressMessageS env h m s).2.dispatchers = s.dispatchers := by
  unfold compressMessageS
  split
  · rfl
  · split <;> rfl

theorem compress_snd_delivered (env : HandlerId → HandlerSpec) (h : HandlerId) (m : Message)
    (s : SysState) : (compressMessageS env h m s).2.delivered = s.delivered := by
  unfold compressMessageS
  split
  · rfl
  · split <;> rfl

theorem compress_snd_filterTrace (env : HandlerId → HandlerSpec) (h : HandlerId) (m : Message)
    (s : SysState) : (compressMessageS env h m s).2.filterTrace = s.filterTrace := by
  unfold compressMessageS
  split
  · rfl
  · split <;> rfl

theorem compress_snd_frameId (env : HandlerId → HandlerSpec) (h : HandlerId) (m : Message)
    (s : SysState) : (compressMessageS env h m s).2.frameId = s.frameId := by
  unfold compressMessageS
  split
  · rfl
  · split <;> rfl

theorem compress_snd_nextLink (env : HandlerId → HandlerSpec) (h : HandlerId) (m : Message)
    (s : SysState) : (compressMessageS env h m s).2.nextLink = s.nextLink := by
  unfold compressMessageS
  split
  · rfl
  · split <;> rfl

@[simp] theorem enqueue_queue (h : HandlerId) (m : Message) (s : SysState) :
    (enqueueMessageS h m s).dispatchQueue = s.dispatchQueue ++ [some h] := by
  simp [enqueueMessageS]

@[simp] theorem enqueue_delivered (h : HandlerId) (m : Message) (s : SysState) :
    (enqueueMessageS h m s).delivered = s.delivered := by
  simp [enqueueMessageS]

@[simp] theorem enqueue_filterTrace (h : HandlerId) (m : Message) (s : SysState) :
    (enqueueMessageS h m s).filterTrace = s.filterTrace := by
  simp [enqueueMessageS]

@[simp] theorem enqueue_compressTrace (h : HandlerId) (m : Message) (s : SysState) :
    (enqueueMessageS h m s).compressTrace = s.compressTrace := by
  simp [enqueueMessageS]

@[simp] theorem enqueue_nextLink (h : HandlerId) (m : Message) (s : SysState) :
    (enqueueMessageS h m s).nextLink = s.nextLink := by
  simp [enqueueMessageS]

theorem enqueue_frameId (h : HandlerId) (m : Message) (s : SysState) :
    (enqueueMessageS h m s).frameId = true := by
  unfold enqueueMessageS
  apply wakeUp_frameId_of_ne_nil
  simp

theorem enqueue_chainOf (h : HandlerId) (m : Message) (s : SysState) (h' : HandlerId) :
    chainOf (enqueueMessageS h m s) h' = chainOf s h' := by
  by_cases hne : h' = h
  · subst hne
    simp [enqueueMessageS, chainOf, dispOf]
  · simp [enqueueMessageS, chainOf, dispOf, lookupD_setD_ne _ _ hne]

theorem enqueue_pendingOf_self (h : HandlerId) (m : Message) (s : SysState) :
    pendingOf (enqueueMessageS h m s) h = pendingOf s h ++ [m] := by
  simp [enqueueMessageS, pendingOf, dispOf]

theorem enqueue_pendingOf_ne (h : HandlerId) (m : Message) (s : SysState) {h' : HandlerId}
    (hne : h' ≠ h) : pendingOf (enqueueMessageS h m s) h' = pendingOf s h' := by
  simp [enqueueMessageS, pendingOf, dispOf, lookupD_setD_ne _ _ hne]

theorem postMessageS_delivered (env : HandlerId → HandlerSpec) (h : HandlerId) (m : Message)
    (s : SysState) : (postMessageS env h m s).delivered = s.delivered := by
  simp only [postMessageS]
  rcases hcc : compressMessageS env h m (ensureDispatcher s h) with ⟨b, s2⟩
  have h2 := compress_snd_delivered env h m (ensureDispatcher s h)
  rw [hcc] at h2
  simp only [ensure_delivered] at h2
  cases b <;> simp [h2]

theorem postMessageS_filterTrace (env : HandlerId → HandlerSpec) (h : HandlerId) (m : Message)
    (s : SysState) : (postMessageS env h m s).filterTrace = s.filterTrace := by
  simp only [postMessageS]
  rcases hcc : compressMessageS env h m (ensureDispatcher s h) with ⟨b, s2⟩
  have h2 := compress_snd_filterTrace env h m (ensureDispatcher s h)
  rw [hcc] at h2
  simp only [ensure_filterTrace] at h2
  cases b <;> simp [h2]

theorem postMessageS_nextLink (env : HandlerId → HandlerSpec) (h : HandlerId) (m : Message)
    (s : SysState) : (postMessageS env h m s).nextLink = s.nextLink := by
  simp only [postMessageS]
  rcases hcc : compressMessageS env h m (ensureDispatcher s h) with ⟨b, s2⟩
  have h2 := compress_snd_nextLink env h m (ensureDispatcher s h)
  rw [hcc] at h2
  simp only [ensure_nextLink] at h2
  cases b <;> simp [h2]

theorem postMessageS_chainOf (env : HandlerId → HandlerSpec) (h : HandlerId) (m : Message)
    (s : SysState) (h' : HandlerId) : chainOf (postMessageS env h m s) h' = chainOf s h' := by
  simp only [postMessageS]
  rcases hcc : compressMessageS env h m (ensureDispatcher s h) with ⟨b, s2⟩
  have h2 := compress_snd_dispatchers env h m (ensureDispatcher s h)
  rw [hcc] at h2
  have h3 : chainOf s2 h' = chainOf s h' := by
    rw [chainOf, dispOf, h2]
    rw [← dispOf, ← chainOf, chainOf_ensure]
  cases b
  · simp [enqueue_chainOf, h3]
  · simp [h3]

theorem postMessageS_queue_ext (env : HandlerId → HandlerSpec) (h : HandlerId) (m : Message)
    (s : SysState) :
    ∃ ext, (postMessageS env h m s).dispatchQueue = s.dispatchQueue ++ ext := by
  simp only [postMessageS]
  rcases hcc : compressMessageS env h m (ensureDispatcher s h) with ⟨b, s2⟩
  have h2 := compress_snd_queue env h m (ensureDispatcher s h)
  rw [hcc] at h2
  simp only [ensure_dispatchQueue] at h2
  cases b
  · exact ⟨[some h], by simp [h2]⟩
  · exact ⟨[], by simp [h2]⟩

theorem postMessageS_frameId_mono (env : HandlerId → HandlerSpec) (h : HandlerId) (m : Message)
    {s : SysState} (hf : s.frameId = true) : (postMessageS env h m s).frameId = true := by
  simp only [postMessageS]
  rcases hcc : compressMessageS env h m (ensureDispatcher s h) with ⟨b, s2⟩
  have h2 := compress_snd_frameId env h m (ensureDispatcher s h)
  rw [hcc] at h2
  simp only [ensure_frameId] at h2
  cases b
  · simp [enqueue_frameId]
  · simp [h2, hf]

theorem doPosts_delivered (env : HandlerId → HandlerSpec) (posts : List (HandlerId × Message)) :
    ∀ s, (doPosts env posts s).delivered = s.delivered := by
  induction posts with
  | nil => intro s; rfl
  | cons p rest ih =>
    intro s
    rw [doPosts, ih, postMessageS_delivered]

theorem doPosts_filterTrace (env : HandlerId → HandlerSpec) (posts : List (HandlerId × Message)) :
    ∀ s, (doPosts env posts s).filterTrace = s.filterTrace := by
  induction posts with
  | nil => intro s; rfl
  | cons p rest ih =>
    intro s
    rw [doPosts, ih, postMessageS_filterTrace]

theorem doPosts_nextLink (env : HandlerId → HandlerSpec) (posts : List (HandlerId × Message)) :
    ∀ s, (doPosts env posts s).nextLink = s.nextLink := by
  induction posts with
  | nil => intro s; rfl
  | cons p rest ih =>
    intro s
    rw [doPosts, ih, postMessageS_nextLink]

theorem doPosts_chainOf (env : HandlerId → HandlerSpec) (posts : List (HandlerId × Message)) :
    ∀ s h', chainOf (doPosts env posts s) h' = chainOf s h' := by
  induction posts with
  | nil => intro s h'; rfl
  | cons p rest ih =>
    intro s h'
    rw [doPosts, ih, postMessageS_chainOf]

theorem doPosts_queue_ext (env : HandlerId → HandlerSpec) (posts : List (HandlerId × Message)) :
    ∀ s, ∃ ext, (doPosts env posts s).dispatchQueue = s.dispatchQueue ++ ext := by
  induction posts with
  | nil => intro s; exact ⟨[], by simp [doPosts]⟩
  | cons p rest ih =>
    intro s
    obtain ⟨e1, he1⟩ := postMessageS_queue_ext env p.1 p.2 s
    obtain ⟨e2, he2⟩ := ih (postMessageS env p.1 p.2 s)
    exact ⟨e1 ++ e2, by rw [doPosts, he2, he1, List.append_assoc]⟩

theorem doPosts_frameId_mono (env : HandlerId → HandlerSpec) (posts : List (HandlerId × Message)) :
    ∀ {s}, s.frameId = true → (doPosts env posts s).frameId = true := by
  induction posts with
  | nil => intro s hf; exact hf
  | cons p rest ih =>
    intro s hf
    rw [doPosts]
    exact ih (postMessageS_frameId_mono env p.1 p.2 hf)

theorem postMessageS_frameId_or (env : HandlerId → HandlerSpec) (h : HandlerId) (m : Message)
    (s : SysState) :
    (postMessageS env h m s).frameId = true ∨ (postMessageS env h m s).frameId = s.frameId := by
  simp only [postMessageS]
  rcases hcc : compressMessageS env h m (ensureDispatcher s h) with ⟨b, s2⟩
  have h2 := compress_snd_frameId env h m (ensureDispatcher s h)
  rw [hcc] at h2
  simp only [ensure_frameId] at h2
  cases b
  · left; simp [enqueue_frameId]
  · right; simp [h2]

theorem doPosts_frameId_or (env : HandlerId → HandlerSpec) (posts : List (HandlerId × Message)) :
    ∀ s, (doPosts env posts s).frameId = true ∨ (doPosts env posts s).frameId = s.frameId := by
  induction posts with
  | nil => intro s; right; rfl
  | cons p rest ih =>
    intro s
    rw [doPosts]
    rcases ih (postMessageS env p.1 p.2 s) with hl | hr
    · left; exact hl
    · rcases postMessageS_frameId_or env p.1 p.2 s with h1 | h1
      · left; rw [hr, h1]
      · right; rw [hr, h1]

@[simp] theorem dispOf_ensure (s : SysState) (h h' : HandlerId) :
    dispOf (ensureDispatcher s h) h' = dispOf s h' := by
  by_cases hne : h' = h
  · subst hne
    simp [dispOf]
  · simp [dispOf, lookupD_ensure_ne s hne]

@[simp] theorem remove_dispatchQueue (h : HandlerId) (f : FilterId) (s : SysState) :
    (removeMessageFilterS h f s).dispatchQueue = s.dispatchQueue := by
  simp [removeMessageFilterS]

@[simp] theorem remove_delivered (h : HandlerId) (f : FilterId) (s : SysState) :
    (removeMessageFilterS h f s).delivered = s.delivered := by
  simp [removeMessageFilterS]

@[simp] theorem remove_filterTrace (h : HandlerId) (f : FilterId) (s : SysState) :
    (removeMessageFilterS h f s).filterTrace = s.filterTrace := by
  simp [removeMessageFilterS]

@[simp] theorem remove_compressTrace (h : HandlerId) (f : FilterId) (s : SysState) :
    (removeMessageFilterS h f s).compressTrace = s.compressTrace := by
  simp [removeMessageFilterS]

@[simp] theorem remove_frameId (h : HandlerId) (f : FilterId) (s : SysState) :
    (removeMessageFilterS h f s).frameId = s.frameId := by
  simp [removeMessageFilterS]

@[simp] theorem remove_nextLink (h : HandlerId) (f : FilterId) (s : SysState) :
    (removeMessageFilterS h f s).nextLink = s.nextLink := by
  simp [removeMessageFilterS]

@[simp] theorem pendingOf_remove (h : HandlerId) (f : FilterId) (s : SysState) (h' : HandlerId) :
    pendingOf (removeMessageFilterS h f s) h' = pendingOf s h' := by
  by_cases hne : h' = h
  · subst hne
    simp only [removeMessageFilterS]
    rw [pendingOf_putDisp_self]
    simp [pendingOf]
  · simp only [removeMessageFilterS]
    rw [pendingOf_putDisp_ne _ _ hne]
    simp

theorem chainOf_remove_self (h : HandlerId) (f : FilterId) (s : SysState) :
    chainOf (removeMessageFilterS h f s) h = (chainOf s h).filter (fun p => p.2 != some f) := by
  simp only [removeMessageFilterS]
  rw [chainOf_putDisp_self]
  simp [chainOf]

theorem chainOf_remove_ne (h : HandlerId) (f : FilterId) (s : SysState) {h' : HandlerId}
    (hne : h' ≠ h) : chainOf (removeMessageFilterS h f s) h' = chainOf s h' := by
  simp only [removeMessageFilterS]
  rw [chainOf_putDisp_ne _ _ hne]
  simp

@[simp] theorem filterStep_dispatchQueue (fenv : FilterId → FilterSpec) (h : HandlerId)
    (m : Message) (f : FilterId) (s : SysState) :
    (filterStep fenv h m f s).dispatchQueue = s.dispatchQueue := by
  unfold filterStep; split <;> simp

@[simp] theorem filterStep_delivered (fenv : FilterId → FilterSpec) (h : HandlerId)
    (m : Message) (f : FilterId) (s : SysState) :
    (filterStep fenv h m f s).delivered = s.delivered := by
  unfold filterStep; split <;> simp

@[simp] theorem filterStep_compressTrace (fenv : FilterId → FilterSpec) (h : HandlerId)
    (m : Message) (f : FilterId) (s : SysState) :
    (filterStep fenv h m f s).compressTrace = s.compressTrace := by
  unfold filterStep; split <;> simp

@[simp] theorem filterStep_frameId (fenv : FilterId → FilterSpec) (h : HandlerId)
    (m : Message) (f : FilterId) (s : SysState) :
    (filterStep fenv h m f s).frameId = s.frameId := by
  unfold filterStep; split <;> simp

@[simp] theorem filterStep_nextLink (fenv : FilterId → FilterSpec) (h : HandlerId)
    (m : Message) (f : FilterId) (s : SysState) :
    (filterStep fenv h m f s).nextLink = s.nextLink := by
  unfold filterStep; split <;> simp

@[simp] theorem filterStep_filterTrace (fenv : FilterId → FilterSpec) (h : HandlerId)
    (m : Message) (f : FilterId) (s : SysState) :
    (filterStep fenv h m f s).filterTrace = s.filterTrace ++ [(f, h, m)] := by
  unfold filterStep; split <;> simp

@[simp] theorem pendingOf_filterStep (fenv : FilterId → FilterSpec) (h : HandlerId)
    (m : Message) (f : FilterId) (s : SysState) (h' : HandlerId) :
    pendingOf (filterStep fenv h m f s) h' = pendingOf s h' := by
  unfold filterStep
  split
  · rw [pendingOf_remove]
    simp [pendingOf, dispOf]
  · simp [pendingOf, dispOf]

theorem chainOf_filterStep_ne (fenv : FilterId → FilterSpec) (h : HandlerId)
    (m : Message) (f : FilterId) (s : SysState) {h' : HandlerId} (hne : h' ≠ h) :
    chainOf (filterStep fenv h m f s) h' = chainOf s h' := by
  unfold filterStep
  split
  · rw [chainOf_remove_ne _ _ _ hne]
    simp [chainOf, dispOf]
  · simp [chainOf, dispOf]

theorem chainOf_filterStep_self (fenv : FilterId → FilterSpec) (h : HandlerId)
    (m : Message) (f : FilterId) (s : SysState) :
    chainOf (filterStep fenv h m f s) h =
      if (fenv f).removesSelf then (chainOf s h).filter (fun p => p.2 != some f)
      else chainOf s h := by
  unfold filterStep
  split
  · rw [chainOf_remove_self]
    simp_all [chainOf, dispOf]
  · simp_all [chainOf, dispOf]

theorem runFilters_nil (fenv : FilterId → FilterSpec) (h : HandlerId) (m : Message)
    (s : SysState) : runFilters fenv h m [] s = (.ok false, s) := rfl

theorem runFilters_eq_skip {fenv : FilterId → FilterSpec} {h : HandlerId} {m : Message}
    {s : SysState} {n : Nat} {rest : List Nat}
    (hl : lookupChain (chainOf s h) n = none) :
    runFilters fenv h m (n :: rest) s = runFilters fenv h m rest s := by
  simp only [runFilters, hl]

theorem runFilters_eq_tomb {fenv : FilterId → FilterSpec} {h : HandlerId} {m : Message}
    {s : SysState} {n : Nat} {rest : List Nat}
    (hl : lookupChain (chainOf s h) n = some none) :
    runFilters fenv h m (n :: rest) s = runFilters fenv h m rest s := by
  simp only [runFilters, hl]

theorem runFilters_eq_live {fenv : FilterId → FilterSpec} {h : HandlerId} {m : Message}
    {s : SysState} {n : Nat} {rest : List Nat} {f : FilterId}
    (hl : lookupChain (chainOf s h) n = some (some f)) :
    runFilters fenv h m (n :: rest) s =
      match (fenv f).result h m with
      | .error e => (.error e, filterStep fenv h m f s)
      | .ok true => (.ok true, filterStep fenv h m f s)
      | .ok false => runFilters fenv h m rest (filterStep fenv h m f s) := by
  simp only [runFilters, hl]

/-- Frame lemma for one filter walk: only `filterTrace` (extended by
invocations for this handler and message) and the walked handler's filter
chain can change. -/
theorem runFilters_frame (fenv : FilterId → FilterSpec) (h : HandlerId) (m : Message) :
    ∀ (ids : List Nat) (s : SysState),
      (runFilters fenv h m ids s).2.dispatchQueue = s.dispatchQueue
      ∧ (runFilters fenv h m ids s).2.delivered = s.delivered
      ∧ (runFilters fenv h m ids s).2.compressTrace = s.compressTrace
      ∧ (runFilters fenv h m ids s).2.frameId = s.frameId
      ∧ (runFilters fenv h m ids s).2.nextLink = s.nextLink
      ∧ (∀ h', pendingOf (runFilters fenv h m ids s).2 h' = pendingOf s h')
      ∧ (∃ tr, (runFilters fenv h m ids s).2.filterTrace = s.filterTrace ++ tr
          ∧ ∀ t ∈ tr, t.2.1 = h ∧ t.2.2 = m) := by
  intro ids
  induction ids with
  | nil =>
    intro s
    rw [runFilters_nil]
    exact ⟨rfl, rfl, rfl, rfl, rfl, fun h' => rfl, ⟨[], by simp, by simp⟩⟩
  | cons n rest ih =>
    intro s
    rcases hl : lookupChain (chainOf s h) n with _ | fo
    · rw [runFilters_eq_skip hl]
      exact ih s
    · rcases fo with _ | f
      · rw [runFilters_eq_tomb hl]
        exact ih s
      · rw [runFilters_eq_live hl]
        rcases hr : (fenv f).result h m with e | b
        · refine ⟨by simp, by simp, by simp, by simp, by simp, fun h' => by simp,
            ⟨[(f, h, m)], by simp, by intro t ht; simp at ht; simp [ht]⟩⟩
        · cases b
          · obtain ⟨iq, idl, ic, ifr, inl, ip, ⟨tr, htr, htrall⟩⟩ :=
              ih (filterStep fenv h m f s)
            refine ⟨by simp [iq], by simp [idl], by simp [ic], by simp [ifr],
              by simp [inl], fun h' => by simp [ip h'], ⟨(f, h, m) :: tr, ?_, ?_⟩⟩
            · simp [htr]
            · intro t ht
              rcases List.mem_cons.mp ht with h1 | h1
              · simp [h1]
              · exact htrall t h1
          · refine ⟨by simp, by simp, by simp, by simp, by simp, fun h' => by simp,
              ⟨[(f, h, m)], by simp, by intro t ht; simp at ht; simp [ht]⟩⟩

theorem wakeUp_frameId_or (s : SysState) :
    (wakeUpMessageLoopS s).frameId = true ∨ (wakeUpMessageLoopS s).frameId = s.frameId := by
  unfold wakeUpMessageLoopS
  split
  · left; rfl
  · right; rfl

/-- Frame lemma for a synchronous send: the dispatch queue is only
extended, the delivery log gains at most the sent message, the filter
trace gains only invocations for this handler. -/
theorem sendMessageS_frame (env : HandlerId → HandlerSpec) (fenv : FilterId → FilterSpec)
    (h : HandlerId) (m : Message) (s : SysState) :
    (∃ qext, (sendMessageS env fenv h m s).2.dispatchQueue = s.dispatchQueue ++ qext)
    ∧ (∃ dext, (sendMessageS env fenv h m s).2.delivered = s.delivered ++ dext
        ∧ (dext = [] ∨ dext = [(h, m)]))
    ∧ (∃ tr, (sendMessageS env fenv h m s).2.filterTrace = s.filterTrace ++ tr
        ∧ ∀ t ∈ tr, t.2.1 = h)
    ∧ ((sendMessageS env fenv h m s).2.frameId = true
        ∨ (sendMessageS env fenv h m s).2.frameId = s.frameId) := by
  simp only [sendMessageS]
  obtain ⟨fq, fd, fc, ff, fn, fp, ⟨tr0, ht0, ha0⟩⟩ :=
    runFilters_frame fenv h m ((chainOf (ensureDispatcher s h) h).map (·.1))
      (ensureDispatcher s h)
  rcases hrf : runFilters fenv h m ((chainOf (ensureDispatcher s h) h).map (·.1))
      (ensureDispatcher s h) with ⟨r, s2⟩
  rw [hrf]
  rw [hrf] at fq fd ff ht0
  simp only [ensure_dispatchQueue, ensure_delivered, ensure_frameId, ensure_filterTrace]
    at fq fd ff ht0
  rcases r with e | b
  · exact ⟨⟨[], by simp [fq]⟩, ⟨[], by simp [fd], Or.inl rfl⟩,
      ⟨tr0, by simp [ht0], fun t ht => (ha0 t ht).1⟩, Or.inr (by simp [ff])⟩
  · cases b
    · rcases hop : (env h).onProcess m with e | posts
      · exact ⟨⟨[], by simp [fq]⟩, ⟨[(h, m)], by simp [fd], Or.inr rfl⟩,
          ⟨tr0, by simp [ht0], fun t ht => (ha0 t ht).1⟩, Or.inr (by simp [ff])⟩
      · obtain ⟨pq, hpq⟩ :=
          doPosts_queue_ext env posts { s2 with delivered := s2.delivered ++ [(h, m)] }
        refine ⟨⟨pq, ?_⟩, ⟨[(h, m)], ?_, Or.inr rfl⟩, ⟨tr0, ?_, fun t ht => (ha0 t ht).1⟩, ?_⟩
        · simp only [hpq] at *
          simp [fq]
        · simp [doPosts_delivered, fd]
        · simp [doPosts_filterTrace, ht0]
        · rcases doPosts_frameId_or env posts { s2 with delivered := s2.delivered ++ [(h, m)] }
            with h1 | h1
          · left; simpa using h1
          · right; simpa [ff] using h1
    · exact ⟨⟨[], by simp [fq]⟩, ⟨[], by simp [fd], Or.inl rfl⟩,
        ⟨tr0, by simp [ht0], fun t ht => (ha0 t ht).1⟩, Or.inr (by simp [ff])⟩

/-- Frame lemma for draining one pending message. -/
theorem sendPendingMessageS_frame (env : HandlerId → HandlerSpec) (fenv : FilterId → FilterSpec)
    (h : HandlerId) (s : SysState) :
    (∃ qext, (sendPendingMessageS env fenv h s).2.dispatchQueue = s.dispatchQueue ++ qext)
    ∧ (∃ dext, (sendPendingMessageS env fenv h s).2.delivered = s.delivered ++ dext
        ∧ ∀ p ∈ dext, p.1 = h)
    ∧ (∃ tr, (sendPendingMessageS env fenv h s).2.filterTrace = s.filterTrace ++ tr
        ∧ ∀ t ∈ tr, t.2.1 = h)
    ∧ ((sendPendingMessageS env fenv h s).2.frameId = true
        ∨ (sendPendingMessageS env fenv h s).2.frameId = s.frameId) := by
  simp only [sendPendingMessageS]
  rcases hp : pendingOf (ensureDispatcher s h) h with _ | ⟨m, rest⟩
  · exact ⟨⟨[], by simp⟩, ⟨[], by simp, by simp⟩, ⟨[], by simp, by simp⟩,
      Or.inr (by simp)⟩
  · obtain ⟨⟨qext, hq⟩, ⟨dext, hd, hdor⟩, ⟨tr, ht, hta⟩, hfr⟩ :=
      sendMessageS_frame env fenv h m
        (putDisp (ensureDispatcher s h) h { dispOf (ensureDispatcher s h) h with messages := rest })
    refine ⟨⟨qext, by simpa using hq⟩, ⟨dext, by simpa using hd, ?_⟩,
      ⟨tr, by simpa using ht, hta⟩, ?_⟩
    · intro p hp'
      rcases hdor with h1 | h1
      · rw [h1] at hp'; simp at hp'
      · rw [h1] at hp'; simp at hp'; simp [hp']
    · rcases hfr with h1 | h1
      · left; exact h1
      · right; simpa using h1

/-- Frame lemma for one dispatch-queue pop's processing. -/
theorem dispatchMessageS_frame (env : HandlerId → HandlerSpec) (fenv : FilterId → FilterSpec)
    (h : HandlerId) (s : SysState) :
    (∃ qext, (dispatchMessageS env fenv h s).2.dispatchQueue = s.dispatchQueue ++ qext)
    ∧ (∃ dext, (dispatchMessageS env fenv h s).2.delivered = s.delivered ++ dext
        ∧ ∀ p ∈ dext, p.1 = h)
    ∧ (∃ tr, (dispatchMessageS env fenv h s).2.filterTrace = s.filterTrace ++ tr
        ∧ ∀ t ∈ tr, t.2.1 = h) := by
  unfold dispatchMessageS
  cases hl : lookupD s.dispatchers h
  · exact ⟨⟨[], by simp⟩, ⟨[], by simp, by simp⟩, ⟨[], by simp, by simp⟩⟩
  · obtain ⟨⟨qext, hq⟩, ⟨dext, hd, hda⟩, ⟨tr, ht, hta⟩, _⟩ :=
      sendPendingMessageS_frame env fenv h s
    rcases hsp : sendPendingMessageS env fenv h s with ⟨r, s1⟩
    rw [hsp] at hq hd ht
    rcases r with e | u
    · exact ⟨⟨qext, by simpa using hq⟩, ⟨dext, by simpa using hd, hda⟩,
        ⟨tr, by simpa using ht, hta⟩⟩
    · exact ⟨⟨qext, by simpa using hq⟩, ⟨dext, by simpa using hd, hda⟩,
        ⟨tr, by simpa using ht, hta⟩⟩

/-- When some sentinel sits in the dispatch queue, a failed dispatch leaves
the wake-up armed (the catch block re-arms before rethrowing). -/
theorem dispatchMessageS_error_armed (env : HandlerId → HandlerSpec)
    (fenv : FilterId → FilterSpec) (h : HandlerId) {s s1 : SysState} {e : Err}
    (hn : (none : Option HandlerId) ∈ s.dispatchQueue)
    (heq : dispatchMessageS env fenv h s = (.error e, s1)) : s1.frameId = true := by
  have hq0 : s.dispatchQueue ≠ [] := by
    intro hq
    rw [hq] at hn
    simp at hn
  unfold dispatchMessageS at heq
  cases hl : lookupD s.dispatchers h with
  | none =>
    rw [hl] at heq
    simp at heq
    rw [← heq.2]
    exact wakeUp_frameId_of_ne_nil hq0
  | some d =>
    rw [hl] at heq
    obtain ⟨⟨qext, hq⟩, _, _, _⟩ := sendPendingMessageS_frame env fenv h s
    rcases hsp : sendPendingMessageS env fenv h s with ⟨r, st⟩
    rw [hsp] at heq hq
    rcases r with e' | u
    · simp at heq
      rw [← heq.2]
      apply wakeUp_frameId_of_ne_nil
      rw [hq]
      simp [hq0]
    · simp at heq

/-! ### The message loop -/

theorem runLoop_zero (env : HandlerId → HandlerSpec) (fenv : FilterId → FilterSpec)
    (s : SysState) : runLoop env fenv 0 s = (.ok (), s) := rfl

theorem runLoop_nil {env : HandlerId → HandlerSpec} {fenv : FilterId → FilterSpec}
    {fuel : Nat} {s : SysState} (hq : s.dispatchQueue = []) :
    runLoop env fenv (fuel + 1) s = (.ok (), s) := by
  simp only [runLoop, hq]

theorem runLoop_sentinel {env : HandlerId → HandlerSpec} {fenv : FilterId → FilterSpec}
    {fuel : Nat} {s : SysState} {rest : List (Option HandlerId)}
    (hq : s.dispatchQueue = none :: rest) :
    runLoop env fenv (fuel + 1) s =
      (.ok (), wakeUpMessageLoopS { s with dispatchQueue := rest }) := by
  simp only [runLoop, hq]

theorem runLoop_handler {env : HandlerId → HandlerSpec} {fenv : FilterId → FilterSpec}
    {fuel : Nat} {s : SysState} {h : HandlerId} {rest : List (Option HandlerId)}
    (hq : s.dispatchQueue = some h :: rest) :
    runLoop env fenv (fuel + 1) s =
      match dispatchMessageS env fenv h { s with dispatchQueue := rest } with
      | (.error e, s1) => (.error e, s1)
      | (.ok _, s1) => runLoop env fenv fuel s1 := by
  simp only [runLoop, hq]

theorem mem_of_getLast? {α : Type _} : ∀ {l : List α} {a : α}, l.getLast? = some a → a ∈ l := by
  intro l
  induction l with
  | nil => intro a h; simp at h
  | cons x rest ih =>
    intro a h
    rcases hr : rest with _ | ⟨y, rest'⟩
    · rw [hr] at h
      simp at h
      simp [h]
    · subst hr
      rw [List.getLast?_cons_cons] at h
      exact List.mem_cons_of_mem x (ih h)

/-- While a sentinel remains in the queue, an aborted loop run leaves the
wake-up armed. -/
theorem runLoop_error_armed (env : HandlerId → HandlerSpec) (fenv : FilterId → FilterSpec) :
    ∀ (fuel : Nat) (s : SysState) (e : Err),
      (none : Option HandlerId) ∈ s.dispatchQueue →
      (runLoop env fenv fuel s).1 = .error e →
      (runLoop env fenv fuel s).2.frameId = true := by
  intro fuel
  induction fuel with
  | zero =>
    intro s e _ herr
    rw [runLoop_zero] at herr
    simp at herr
  | succ fuel ih =>
    intro s e hn herr
    rcases hq : s.dispatchQueue with _ | ⟨ho, rest⟩
    · rw [runLoop_nil hq] at herr
      simp at herr
    · rcases ho with _ | h2
      · rw [runLoop_sentinel hq] at herr
        simp at herr
      · have hn' : (none : Option HandlerId) ∈ rest := by
          rw [hq] at hn
          simpa using hn
        rw [runLoop_handler hq] at herr ⊢
        rcases hdm : dispatchMessageS env fenv h2 { s with dispatchQueue := rest }
          with ⟨r, s1⟩
        rw [hdm] at herr
        rcases r with e' | u
        · exact dispatchMessageS_error_armed env fenv h2 (by simpa using hn') hdm
        · obtain ⟨⟨qext, hqe⟩, _, _⟩ :=
            dispatchMessageS_frame env fenv h2 { s with dispatchQueue := rest }
          rw [hdm] at hqe
          simp only at hqe
          have hn1 : (none : Option HandlerId) ∈ s1.dispatchQueue := by
            rw [hqe]
            exact List.mem_append_left _ (by simpa using hn')
          exact ih s1 e hn1 (by simpa using herr)

@[simp] theorem sentinelled_dispatchers (s : SysState) :
    (sentinelled s).dispatchers = s.dispatchers := by
  simp only [sentinelled]; split <;> rfl

@[simp] theorem sentinelled_delivered (s : SysState) :
    (sentinelled s).delivered = s.delivered := by
  simp only [sentinelled]; split <;> rfl

@[simp] theorem sentinelled_filterTrace (s : SysState) :
    (sentinelled s).filterTrace = s.filterTrace := by
  simp only [sentinelled]; split <;> rfl

@[simp] theorem sentinelled_compressTrace (s : SysState) :
    (sentinelled s).compressTrace = s.compressTrace := by
  simp only [sentinelled]; split <;> rfl

@[simp] theorem sentinelled_nextLink (s : SysState) :
    (sentinelled s).nextLink = s.nextLink := by
  simp only [sentinelled]; split <;> rfl

theorem sentinelled_queue_or (s : SysState) :
    (sentinelled s).dispatchQueue = s.dispatchQueue
    ∨ (sentinelled s).dispatchQueue = s.dispatchQueue ++ [none] := by
  simp only [sentinelled]
  split
  · left; rfl
  · right; rfl

theorem none_mem_sentinelled (s : SysState) :
    (none : Option HandlerId) ∈ (sentinelled s).dispatchQueue := by
  simp only [sentinelled]
  split
  · next hl => exact mem_of_getLast? hl
  · simp

/-- The split of a queue at its first sentinel. -/
theorem first_none_split {l : List (Option HandlerId)}
    (hn : (none : Option HandlerId) ∈ l) :
    ∃ pre post, l = pre ++ none :: post ∧ (none : Option HandlerId) ∉ pre := by
  induction l with
  | nil => simp at hn
  | cons e rest ih =>
    rcases e with _ | h2
    · exact ⟨[], rest, rfl, by simp⟩
    · have hn' : (none : Option HandlerId) ∈ rest := by simpa using hn
      obtain ⟨pre, post, hsplit, hnp⟩ := ih hn'
      exact ⟨some h2 :: pre, post, by rw [hsplit]; rfl, by simp [hnp]⟩

/-- While no entry for a handler sits before the first sentinel, the loop
neither delivers to that handler nor invokes any filter for it. -/
theorem runLoop_avoid (env : HandlerId → HandlerSpec) (fenv : FilterId → FilterSpec)
    (h : HandlerId) :
    ∀ (fuel : Nat) (s : SysState),
      (∃ pre post, s.dispatchQueue = pre ++ none :: post
          ∧ (none : Option HandlerId) ∉ pre ∧ some h ∉ pre) →
      ∃ Δd Δf,
        (runLoop env fenv fuel s).2.delivered = s.delivered ++ Δd
        ∧ (∀ p ∈ Δd, p.1 ≠ h)
        ∧ (runLoop env fenv fuel s).2.filterTrace = s.filterTrace ++ Δf
        ∧ (∀ t ∈ Δf, t.2.1 ≠ h) := by
  intro fuel
  induction fuel with
  | zero =>
    intro s _
    exact ⟨[], [], by simp [runLoop_zero], by simp, by simp [runLoop_zero], by simp⟩
  | succ fuel ih =>
    rintro s ⟨pre, post, hq, hnp, hhp⟩
    rcases pre with _ | ⟨e0, pre'⟩
    · rw [runLoop_sentinel (by simpa using hq)]
      exact ⟨[], [], by simp, by simp, by simp, by simp⟩
    · rcases e0 with _ | h2
      · exact absurd (List.mem_cons_self _ _) hnp
      · have hne : h2 ≠ h := fun hcon => hhp (by simp [hcon])
        have hq' : s.dispatchQueue = some h2 :: (pre' ++ none :: post) := by simpa using hq
        rw [runLoop_handler hq']
        obtain ⟨⟨qext, hqe⟩, ⟨dext, hde, hda⟩, ⟨fext, hfe, hfa⟩⟩ :=
          dispatchMessageS_frame env fenv h2 { s with dispatchQueue := pre' ++ none :: post }
        rcases hdm : dispatchMessageS env fenv h2 { s with dispatchQueue := pre' ++ none :: post }
          with ⟨r, s1⟩
        rw [hdm] at hqe hde hfe
        simp only at hqe hde hfe
        rcases r with e' | u
        · refine ⟨dext, fext, by simpa using hde, ?_, by simpa using hfe, ?_⟩
          · intro p hp
            rw [hda p hp]
            exact hne
          · intro t ht
            rw [hfa t ht]
            exact hne
        · obtain ⟨Δd, Δf, ihd, ihda, ihf, ihfa⟩ := ih s1
            ⟨pre', post ++ qext, by rw [hqe]; simp, fun hc => hnp (by simp [hc]),
             fun hc => hhp (by simp [hc])⟩
          refine ⟨dext ++ Δd, fext ++ Δf, ?_, ?_, ?_, ?_⟩
          · show (runLoop env fenv fuel s1).2.delivered = _
            rw [ihd, hde]
            simp
          · intro p hp
            rcases List.mem_append.mp hp with hp | hp
            · rw [hda p hp]
              exact hne
            · exact ihda p hp
          · show (runLoop env fenv fuel s1).2.filterTrace = _
            rw [ihf, hfe]
            simp
          · intro t ht
            rcases List.mem_append.mp ht with ht | ht
            · rw [hfa t ht]
              exact hne
            · exact ihfa t ht

theorem clear_dispatchQueue (h : HandlerId) (s : SysState) :
    (clearMessageDataS h s).dispatchQueue
      = s.dispatchQueue.filter (fun e => e != some h) := by
  simp only [clearMessageDataS]
  cases hl : lookupD s.dispatchers h <;> simp

theorem clear_delivered (h : HandlerId) (s : SysState) :
    (clearMessageDataS h s).delivered = s.delivered := by
  simp only [clearMessageDataS]
  cases hl : lookupD s.dispatchers h <;> simp

theorem clear_filterTrace (h : HandlerId) (s : SysState) :
    (clearMessageDataS h s).filterTrace = s.filterTrace := by
  simp only [clearMessageDataS]
  cases hl : lookupD s.dispatchers h <;> simp

theorem some_not_mem_clear_queue (h : HandlerId) (s : SysState) :
    some h ∉ (clearMessageDataS h s).dispatchQueue := by
  rw [clear_dispatchQueue]
  intro hmem
  have := List.of_mem_filter hmem
  simp at this

/-- C3: if running one scheduler cycle propagates an error thrown by
handler or filter code, the wake-up was re-armed before the error
propagated: the state returned along with the error is Armed, so the
remaining pending handlers are processed on a subsequent cycle.  The error
value itself is the cycle's result, unswallowed (the hypothesis exhibits
it as the returned `Except.error`). -/
theorem c3_error_rearms_before_propagating (env : HandlerId → HandlerSpec)
    (fenv : FilterId → FilterSpec) (s : SysState) (e : Err)
    (herr : (runMessageLoopS env fenv s).1 = .error e) :
    (runMessageLoopS env fenv s).2.frameId = true := by
  unfold runMessageLoopS at herr ⊢
  by_cases hq : s.dispatchQueue = []
  · rw [if_pos hq] at herr
    simp at herr
  · rw [if_neg hq] at herr ⊢
    exact runLoop_error_armed env fenv _ _ e (none_mem_sentinelled s) herr

/-- C9: after `clearMessageData(H)` every dispatch-queue entry for H is
purged, and one scheduler drain delivers no message to H and invokes no
filter for H, whatever was posted or installed for H beforehand and
whatever the other handlers do. -/
theorem c9_clear_then_drain_avoids_handler (env : HandlerId → HandlerSpec)
    (fenv : FilterId → FilterSpec) (h : HandlerId) (s : SysState) :
    (clearMessageDataS h s).dispatchQueue.filter (fun e => e == some h) = []
    ∧ ∃ Δd Δf,
        (runMessageLoopS env fenv (clearMessageDataS h s)).2.delivered
          = (clearMessageDataS h s).delivered ++ Δd
        ∧ Δd.filter (fun p => p.1 == h) = []
        ∧ (runMessageLoopS env fenv (clearMessageDataS h s)).2.filterTrace
          = (clearMessageDataS h s).filterTrace ++ Δf
        ∧ Δf.filter (fun t => t.2.1 == h) = [] := by
  constructor
  · rw [List.filter_eq_nil_iff]
    intro e he
    have hne : e ≠ some h := fun hc => some_not_mem_clear_queue h s (hc ▸ he)
    simp [hne]
  · unfold runMessageLoopS
    by_cases hq : (clearMessageDataS h s).dispatchQueue = []
    · rw [if_pos hq]
      exact ⟨[], [], by simp, by simp, by simp, by simp⟩
    · rw [if_neg hq]
      have hsq : some h ∉ (sentinelled (clearMessageDataS h s)).dispatchQueue := by
        rcases sentinelled_queue_or (clearMessageDataS h s) with h1 | h1 <;> rw [h1]
        · exact some_not_mem_clear_queue h s
        · intro hmem
          rcases List.mem_append.mp hmem with hmem | hmem
          · exact some_not_mem_clear_queue h s hmem
          · simp at hmem
      obtain ⟨pre, post, hsplit, hpre⟩ :=
        first_none_split (none_mem_sentinelled (clearMessageDataS h s))
      have hhpre : some h ∉ pre := fun hc =>
        hsq (hsplit ▸ List.mem_append_left _ hc)
      obtain ⟨Δd, Δf, hd, hda, hf, hfa⟩ :=
        runLoop_avoid env fenv h (sentinelled (clearMessageDataS h s)).dispatchQueue.length
          (sentinelled (clearMessageDataS h s)) ⟨pre, post, hsplit, hpre, hhpre⟩
      refine ⟨Δd, Δf, ?_, ?_, ?_, ?_⟩
      · rw [hd]
        simp
      · rw [List.filter_eq_nil_iff]
        intro p hp
        simp [hda p hp]
      · rw [hf]
        simp
      · rw [List.filter_eq_nil_iff]
        intro t ht
        simp [hfa t ht]

/-! ### Plain handlers: exact bookkeeping of the post and drain phases -/

@[simp] theorem enqueue_dispatchers (h : HandlerId) (m : Message) (s : SysState) :
    (enqueueMessageS h m s).dispatchers
      = setD s.dispatchers h { dispOf s h with messages := (dispOf s h).messages ++ [m] } := by
  simp [enqueueMessageS]

/-- A dispatch for a plain handler with no filters: the oldest pending
message is popped and delivered, nothing else changes. -/
theorem dispatchMessageS_plain (env : HandlerId → HandlerSpec) (fenv : FilterId → FilterSpec)
    {h : HandlerId} {s : SysState} {d : MessageDispatcher} {m : Message} {tail : List Message}
    (hps : PlainH (env h)) (hd : lookupD s.dispatchers h = some d)
    (hf : d.filters = []) (hm : d.messages = m :: tail) :
    dispatchMessageS env fenv h s =
      (.ok (), { s with
        dispatchers := setD s.dispatchers h ⟨[], tail⟩,
        delivered := s.delivered ++ [(h, m)] }) := by
  have hens : ensureDispatcher s h = s := ensureDispatcher_of_isSome (by rw [hd]; rfl)
  have hdisp : dispOf s h = d := by rw [dispOf, hd]; rfl
  have hp : pendingOf s h = m :: tail := by rw [pendingOf, hdisp, hm]
  set s2 : SysState := putDisp s h { d with messages := tail } with hs2
  have hl2 : lookupD s2.dispatchers h = some { d with messages := tail } := by
    rw [hs2]
    simp
  have hens2 : ensureDispatcher s2 h = s2 := ensureDispatcher_of_isSome (by rw [hl2]; rfl)
  have hch2 : chainOf s2 h = [] := by
    rw [chainOf, dispOf, hl2]
    simpa using hf
  have hsend : sendMessageS env fenv h m s2 =
      (.ok (), { s2 with delivered := s2.delivered ++ [(h, m)] }) := by
    simp only [sendMessageS, hens2, hch2, List.map_nil, runFilters_nil, hps.2 m, doPosts]
  have hsp : sendPendingMessageS env fenv h s =
      (.ok (), { s2 with delivered := s2.delivered ++ [(h, m)] }) := by
    simp only [sendPendingMessageS, hens, hp, hdisp]
    rw [← hs2]
    exact hsend
  simp only [dispatchMessageS, hd, hsp]
  rw [hs2]
  simp [putDisp, hf]

/-- Draining one generation of plain handlers delivers exactly the
recorded per-handler pending messages, in queue order. -/
theorem runLoop_drain (env : HandlerId → HandlerSpec) (fenv : FilterId → FilterSpec)
    (hps : ∀ h, PlainH (env h)) :
    ∀ (L : List (HandlerId × Message)) (s : SysState),
      s.dispatchQueue = L.map (fun p => some p.1) ++ [none] →
      (∀ h, chainOf s h = []) →
      (∀ h, pendingOf s h = (L.filter (fun p => p.1 == h)).map (·.2)) →
      (∀ h, pendingOf s h ≠ [] → (lookupD s.dispatchers h).isSome) →
      (runLoop env fenv (L.length + 1) s).1 = .ok ()
      ∧ (runLoop env fenv (L.length + 1) s).2.delivered = s.delivered ++ L := by
  intro L
  induction L with
  | nil =>
    intro s hq _ _ _
    rw [runLoop_sentinel (by simpa using hq)]
    exact ⟨rfl, by simp⟩
  | cons p rest ih =>
    obtain ⟨h, m⟩ := p
    intro s hq hch hpend hpres
    have hq' : s.dispatchQueue = some h :: (rest.map (fun p => some p.1) ++ [none]) := by
      simpa using hq
    have hpd : pendingOf s h = m :: (rest.filter (fun p => p.1 == h)).map (·.2) := by
      have := hpend h
      simpa using this
    have hsome : (lookupD s.dispatchers h).isSome := hpres h (by rw [hpd]; simp)
    obtain ⟨d, hd⟩ := Option.isSome_iff_exists.mp hsome
    have hdm : d.messages = m :: (rest.filter (fun p => p.1 == h)).map (·.2) := by
      have hx : pendingOf s h = d.messages := by rw [pendingOf, dispOf, hd]; rfl
      rw [← hx, hpd]
    have hdf : d.filters = [] := by
      have hx : chainOf s h = d.filters := by rw [chainOf, dispOf, hd]; rfl
      rw [← hx, hch h]
    have hd' : lookupD ({ s with dispatchQueue := rest.map (fun p => some p.1) ++ [none] } :
        SysState).dispatchers h = some d := hd
    rw [runLoop_handler hq',
      dispatchMessageS_plain env fenv (hps h) hd' hdf hdm]
    set snew : SysState :=
      { s with
        dispatchQueue := rest.map (fun p => some p.1) ++ [none],
        dispatchers := setD s.dispatchers h ⟨[], (rest.filter (fun p => p.1 == h)).map (·.2)⟩,
        delivered := s.delivered ++ [(h, m)] } with hsnew
    have inv1 : snew.dispatchQueue = rest.map (fun p => some p.1) ++ [none] := by
      rw [hsnew]
    have inv2 : ∀ h', chainOf snew h' = [] := by
      intro h'
      rw [hsnew, chainOf, dispOf]
      by_cases hne : h' = h
      · subst hne
        simp
      · simp only [lookupD_setD_ne _ _ hne]
        exact hch h'
    have inv3 : ∀ h', pendingOf snew h' = (rest.filter (fun p => p.1 == h')).map (·.2) := by
      intro h'
      rw [hsnew, pendingOf, dispOf]
      by_cases hne : h' = h
      · subst hne
        simp
      · simp only [lookupD_setD_ne _ _ hne]
        have hp' := hpend h'
        rw [pendingOf, dispOf] at hp'
        have hb : (h == h') = false := by
          simp only [beq_eq_false_iff_ne]
          exact fun hc => hne hc.symm
        simp only [hp']
        simp [List.filter_cons, hb]
    have inv4 : ∀ h', pendingOf snew h' ≠ [] → (lookupD snew.dispatchers h').isSome := by
      intro h' hne'
      by_cases hne : h' = h
      · subst hne
        rw [hsnew]
        simp
      · rw [hsnew]
        simp only [lookupD_setD_ne _ _ hne]
        apply hpres h'
        have hb : (h == h') = false := by
          simp only [beq_eq_false_iff_ne]
          exact fun hc => hne hc.symm
        have hp' := hpend h'
        simp [List.filter_cons, hb] at hp'
        rw [hp']
        rw [inv3 h'] at hne'
        exact hne'
    obtain ⟨ihok, ihdel⟩ := ih snew inv1 inv2 inv3 inv4
    constructor
    · show (runLoop env fenv (rest.length + 1) snew).1 = Except.ok ()
      exact ihok
    · show (runLoop env fenv (rest.length + 1) snew).2.delivered
        = s.delivered ++ (h, m) :: rest
      rw [ihdel, hsnew]
      simp

@[simp] theorem pendingOf_sentinelled (s : SysState) (h : HandlerId) :
    pendingOf (sentinelled s) h = pendingOf s h := by
  rw [pendingOf, dispOf, sentinelled_dispatchers]
  rfl

@[simp] theorem chainOf_sentinelled (s : SysState) (h : HandlerId) :
    chainOf (sentinelled s) h = chainOf s h := by
  rw [chainOf, dispOf, sentinelled_dispatchers]
  rfl

theorem sentinelled_queue_push {s : SysState}
    (h : s.dispatchQueue.getLast? ≠ some none) :
    (sentinelled s).dispatchQueue = s.dispatchQueue ++ [none] := by
  simp only [sentinelled]
  rw [if_neg (by simpa using h)]

theorem postMessageS_plain_frame (env : HandlerId → HandlerSpec) {h : HandlerId}
    (hc : (env h).compress = none) (m : Message) (s : SysState) :
    (postMessageS env h m s).dispatchQueue = s.dispatchQueue ++ [some h]
    ∧ (∀ h', chainOf (postMessageS env h m s) h' = chainOf s h')
    ∧ pendingOf (postMessageS env h m s) h = pendingOf s h ++ [m]
    ∧ (∀ h', h' ≠ h → pendingOf (postMessageS env h m s) h' = pendingOf s h')
    ∧ (postMessageS env h m s).delivered = s.delivered
    ∧ (lookupD (postMessageS env h m s).dispatchers h).isSome
    ∧ (∀ h', (lookupD s.dispatchers h').isSome →
        (lookupD (postMessageS env h m s).dispatchers h').isSome) := by
  have heq : postMessageS env h m s = enqueueMessageS h m (ensureDispatcher s h) := by
    simp only [postMessageS, compressMessageS, hc]
  rw [heq]
  refine ⟨by simp, ?_, ?_, ?_, by simp, ?_, ?_⟩
  · intro h'
    rw [enqueue_chainOf]
    simp
  · rw [enqueue_pendingOf_self]
    simp
  · intro h' hne
    rw [enqueue_pendingOf_ne _ _ _ hne]
    simp
  · rw [enqueue_dispatchers]
    simp
  · intro h' hs
    rw [enqueue_dispatchers]
    by_cases hne : h' = h
    · subst hne
      simp
    · simp only [lookupD_setD_ne _ _ hne]
      rwa [lookupD_ensure_ne s hne]

theorem postAll_plain (env : HandlerId → HandlerSpec) (hps : ∀ h, PlainH (env h)) :
    ∀ (L : List (HandlerId × Message)) (s : SysState),
      (postAll env L s).dispatchQueue = s.dispatchQueue ++ L.map (fun p => some p.1)
      ∧ (∀ h, chainOf (postAll env L s) h = chainOf s h)
      ∧ (∀ h, pendingOf (postAll env L s) h
          = pendingOf s h ++ (L.filter (fun p => p.1 == h)).map (·.2))
      ∧ (postAll env L s).delivered = s.delivered
      ∧ (∀ h', (lookupD s.dispatchers h').isSome →
          (lookupD (postAll env L s).dispatchers h').isSome)
      ∧ (∀ h', h' ∈ L.map (·.1) → (lookupD (postAll env L s).dispatchers h').isSome) := by
  intro L
  induction L with
  | nil =>
    intro s
    exact ⟨by simp [postAll], fun h => rfl, fun h => by simp [postAll], rfl,
      fun h' hs => hs, fun h' hmem => by simp at hmem⟩
  | cons p rest ih =>
    obtain ⟨h, m⟩ := p
    intro s
    obtain ⟨pq, pch, ppself, ppne, pd, pls, plspre⟩ :=
      postMessageS_plain_frame env (hps h).1 m s
    obtain ⟨iq, ich, ip, idel, ipres, imem⟩ := ih (postMessageS env h m s)
    refine ⟨?_, ?_, ?_, ?_, ?_, ?_⟩
    · rw [postAll, iq, pq]
      simp
    · intro h''
      rw [postAll, ich h'', pch h'']
    · intro h''
      rw [postAll, ip h'']
      by_cases hne : h'' = h
      · subst hne
        rw [ppself]
        simp [List.filter_cons, List.append_assoc]
      · rw [ppne h'' hne]
        have hb : (h == h'') = false := by
          simp only [beq_eq_false_iff_ne]
          exact fun hc => hne hc.symm
        simp [List.filter_cons, hb]
    · rw [postAll, idel, pd]
    · intro h' hs
      rw [postAll]
      exact ipres h' (plspre h' hs)
    · intro h' hmem
      rw [postAll]
      rcases (by simpa using hmem : h' = h ∨ h' ∈ rest.map (·.1)) with hcc | hcc
      · subst hcc
        exact ipres h' pls
      · exact imem h' hcc

/-- C1: starting from a clean state, posted messages that are never
compressed away (plain handlers, which implement no `compressMessage`) are
delivered by one scheduler cycle in global post order across all handlers:
the cycle's delivery log extension is exactly the post list. -/
theorem c1_global_post_order (env : HandlerId → HandlerSpec) (fenv : FilterId → FilterSpec)
    (L : List (HandlerId × Message)) (s0 : SysState)
    (hc : Clean s0) (hps : ∀ h, PlainH (env h)) :
    (runMessageLoopS env fenv (postAll env L s0)).1 = .ok ()
    ∧ (runMessageLoopS env fenv (postAll env L s0)).2.delivered = s0.delivered ++ L := by
  obtain ⟨hcd, hcq⟩ := hc
  have hch0 : ∀ h, chainOf s0 h = [] := by
    intro h
    rw [chainOf, dispOf, hcd]
    rfl
  have hp0 : ∀ h, pendingOf s0 h = [] := by
    intro h
    rw [pendingOf, dispOf, hcd]
    rfl
  obtain ⟨pq, pch, pp, pd, _, pmem⟩ := postAll_plain env hps L s0
  rcases L with _ | ⟨p0, L'⟩
  · unfold runMessageLoopS
    rw [if_pos (by simp [postAll, hcq])]
    exact ⟨rfl, by simp [postAll]⟩
  · set sP := postAll env (p0 :: L') s0 with hsP
    have hqP : sP.dispatchQueue = (p0 :: L').map (fun p => some p.1) := by
      rw [hsP, pq, hcq]
      simp
    have hqPne : sP.dispatchQueue ≠ [] := by
      rw [hqP]
      simp
    have hlast : sP.dispatchQueue.getLast? ≠ some none := by
      rw [hqP]
      intro hcon
      have := mem_of_getLast? hcon
      simp at this
    have hsq : (sentinelled sP).dispatchQueue
        = (p0 :: L').map (fun p => some p.1) ++ [none] := by
      rw [sentinelled_queue_push hlast, hqP]
    have inv2 : ∀ h, chainOf (sentinelled sP) h = [] := by
      intro h
      rw [chainOf_sentinelled, hsP, pch h, hch0 h]
    have inv3 : ∀ h, pendingOf (sentinelled sP) h
        = ((p0 :: L').filter (fun p => p.1 == h)).map (·.2) := by
      intro h
      rw [pendingOf_sentinelled, hsP, pp h, hp0 h]
      rfl
    have inv4 : ∀ h, pendingOf (sentinelled sP) h ≠ [] →
        (lookupD (sentinelled sP).dispatchers h).isSome := by
      intro h hnp
      rw [inv3 h] at hnp
      have hex : ∃ p ∈ (p0 :: L'), p.1 = h := by
        by_contra hall
        push_neg at hall
        apply hnp
        rw [List.filter_eq_nil_iff.mpr (fun p hp => by simp [hall p hp])]
        rfl
      obtain ⟨p, hpmem, hph⟩ := hex
      rw [sentinelled_dispatchers, hsP]
      exact pmem h (List.mem_map.mpr ⟨p, hpmem, hph⟩)
    obtain ⟨dok, ddel⟩ := runLoop_drain env fenv hps (p0 :: L') (sentinelled sP)
      hsq inv2 inv3 inv4
    have hfuel : (sentinelled sP).dispatchQueue.length = (p0 :: L').length + 1 := by
      rw [hsq]
      simp
    unfold runMessageLoopS
    rw [if_neg hqPne, hfuel]
    constructor
    · exact dok
    · rw [ddel]
      rw [sentinelled_delivered, hsP, pd]

/-- Witness for C1: the reference interleaving over three handlers,
`(H3,one),(H1,two),(H2,three),(H1,A),(H2,B),(H3,C)`, drained in one cycle,
delivers `[two, A]` to H1, `[three, B]` to H2 and `[one, C]` to H3. -/
theorem c1_global_post_order_witness :
    Clean initState
    ∧ ((runMessageLoopS plainEnv trivFenv (postAll plainEnv c1Posts initState)).2.delivered.filter
        (fun p => p.1 == 1)).map (·.2) = [⟨"two"⟩, ⟨"A"⟩]
    ∧ ((runMessageLoopS plainEnv trivFenv (postAll plainEnv c1Posts initState)).2.delivered.filter
        (fun p => p.1 == 2)).map (·.2) = [⟨"three"⟩, ⟨"B"⟩]
    ∧ ((runMessageLoopS plainEnv trivFenv (postAll plainEnv c1Posts initState)).2.delivered.filter
        (fun p => p.1 == 3)).map (·.2) = [⟨"one"⟩, ⟨"C"⟩] := by
  refine ⟨⟨rfl, rfl⟩, ?_, ?_, ?_⟩
  all_goals
    rw [(c1_global_post_order plainEnv trivFenv c1Posts initState ⟨rfl, rfl⟩
      (fun h => ⟨rfl, fun m => rfl⟩)).2]
    decide

/-! ### Synchronous send and manual draining -/

theorem compress_snd_pendingOf (env : HandlerId → HandlerSpec) (h : HandlerId) (m : Message)
    (s : SysState) (h' : HandlerId) :
    pendingOf (compressMessageS env h m s).2 h' = pendingOf s h' := by
  rw [pendingOf, dispOf, compress_snd_dispatchers]
  rfl

theorem postMessageS_pendingOf_ne (env : HandlerId → HandlerSpec) (h : HandlerId) (m : Message)
    (s : SysState) {h' : HandlerId} (hne : h' ≠ h) :
    pendingOf (postMessageS env h m s) h' = pendingOf s h' := by
  simp only [postMessageS]
  rcases hcc : compressMessageS env h m (ensureDispatcher s h) with ⟨b, s2⟩
  have h2 := compress_snd_pendingOf env h m (ensureDispatcher s h) h'
  rw [hcc] at h2
  simp only [pendingOf_ensure] at h2
  cases b
  · rw [enqueue_pendingOf_ne _ _ _ hne, h2]
  · exact h2

theorem doPosts_pendingOf_ne (env : HandlerId → HandlerSpec) (h' : HandlerId) :
    ∀ (posts : List (HandlerId × Message)) (s : SysState),
      (∀ q ∈ posts, q.1 ≠ h') →
      pendingOf (doPosts env posts s) h' = pendingOf s h' := by
  intro posts
  induction posts with
  | nil => intro s _; rfl
  | cons q qrest ih =>
    intro s hav
    rw [doPosts, ih _ (fun q' hq' => hav q' (List.mem_cons_of_mem _ hq')),
      postMessageS_pendingOf_ne env q.1 q.2 s
        (Ne.symm (hav q (List.mem_cons_self _ _)))]

/-- A synchronous send leaves a handler's pending queue untouched provided
re-entrant posts from `processMessage` avoid that handler. -/
theorem sendMessageS_pendingOf (env : HandlerId → HandlerSpec) (fenv : FilterId → FilterSpec)
    (h : HandlerId) (m : Message) (s : SysState) (h' : HandlerId)
    (hav : ∀ posts, (env h).onProcess m = .ok posts → ∀ q ∈ posts, q.1 ≠ h') :
    pendingOf (sendMessageS env fenv h m s).2 h' = pendingOf s h' := by
  simp only [sendMessageS]
  obtain ⟨_, _, _, _, _, fp, _⟩ :=
    runFilters_frame fenv h m ((chainOf (ensureDispatcher s h) h).map (·.1))
      (ensureDispatcher s h)
  rcases hrf : runFilters fenv h m ((chainOf (ensureDispatcher s h) h).map (·.1))
      (ensureDispatcher s h) with ⟨r, s2⟩
  rw [hrf]
  have h2 : pendingOf s2 h' = pendingOf s h' := by
    have := fp h'
    rw [hrf] at this
    simpa using this
  rcases r with e | b
  · exact h2
  · cases b
    · rcases hop : (env h).onProcess m with e | posts
      · simpa using h2
      · have hx : pendingOf (doPosts env posts
            { s2 with delivered := s2.delivered ++ [(h, m)] }) h'
            = pendingOf s2 h' := by
          rw [doPosts_pendingOf_ne env h' posts _ (hav posts hop)]
          rw [pendingOf, dispOf]
          rfl
        simpa [hx] using h2
    · exact h2

/-- C8: with no filters installed for H, `sendMessage(H, M)` invokes
`H.processMessage(M)` exactly once, synchronously before returning (the
call returns ok and the delivery log is extended by exactly that one
entry), and never consults `H.compressMessage` (the compression trace is
unchanged) or the pending queue (H's pending queue is untouched); no
filter is invoked either. -/
theorem c8_send_no_filters (env : HandlerId → HandlerSpec) (fenv : FilterId → FilterSpec)
    (h : HandlerId) (m : Message) (s : SysState)
    (hch : chainOf s h = []) (hpr : (env h).onProcess m = .ok []) :
    (sendMessageS env fenv h m s).1 = .ok ()
    ∧ (sendMessageS env fenv h m s).2.delivered = s.delivered ++ [(h, m)]
    ∧ (sendMessageS env fenv h m s).2.compressTrace = s.compressTrace
    ∧ (sendMessageS env fenv h m s).2.filterTrace = s.filterTrace
    ∧ pendingOf (sendMessageS env fenv h m s).2 h = pendingOf s h := by
  have hch' : chainOf (ensureDispatcher s h) h = [] := by
    rw [chainOf_ensure]
    exact hch
  simp only [sendMessageS, hch', List.map_nil, runFilters_nil, hpr, doPosts]
  refine ⟨by simp, by simp, by simp, by simp, by simp [pendingOf, dispOf]⟩

/-- Witness for C8: a plain handler with an empty chain in the pristine
state receives the message exactly once and the compression trace and
pending queue stay empty. -/
theorem c8_send_no_filters_witness :
    chainOf initState 0 = []
    ∧ (sendMessageS plainEnv trivFenv 0 ⟨"w"⟩ initState).2.delivered = [(0, ⟨"w"⟩)]
    ∧ (sendMessageS plainEnv trivFenv 0 ⟨"w"⟩ initState).2.compressTrace = [] := by
  have h := c8_send_no_filters plainEnv trivFenv 0 ⟨"w"⟩ initState (by decide) rfl
  exact ⟨by decide, by rw [h.2.1]; decide, by rw [h.2.2.1]; decide⟩

/-- C10: `sendPendingMessage(H)` pops the oldest pending message before
the filter chain runs: whatever the filter outcome (suppression, delivery,
or a thrown error), the pending queue loses exactly its head — so even a
suppressed message is consumed and cannot be redelivered on a later drain
— and the delivery log gains at most the popped message. -/
theorem c10_pop_precedes_filters (env : HandlerId → HandlerSpec) (fenv : FilterId → FilterSpec)
    (h : HandlerId) (m : Message) (rest : List Message) (s : SysState)
    (hp : pendingOf s h = m :: rest)
    (hav : ∀ posts, (env h).onProcess m = .ok posts → ∀ q ∈ posts, q.1 ≠ h) :
    pendingOf (sendPendingMessageS env fenv h s).2 h = rest
    ∧ ((sendPendingMessageS env fenv h s).2.delivered = s.delivered
       ∨ (sendPendingMessageS env fenv h s).2.delivered = s.delivered ++ [(h, m)]) := by
  simp only [sendPendingMessageS]
  have hp' : pendingOf (ensureDispatcher s h) h = m :: rest := by
    rw [pendingOf_ensure]
    exact hp
  rw [hp']
  constructor
  · rw [sendMessageS_pendingOf env fenv h m _ h hav]
    simp
  · obtain ⟨_, ⟨dext, hd, hdor⟩, _, _⟩ :=
      sendMessageS_frame env fenv h m
        (putDisp (ensureDispatcher s h) h { dispOf (ensureDispatcher s h) h with messages := rest })
    rcases hdor with h1 | h1
    · left
      rw [hd, h1]
      simp
    · right
      rw [hd, h1]
      simp

/-- Witness for C10: with a suppressing filter installed, the pending
message is consumed by `sendPendingMessage` yet never delivered. -/
theorem c10_pop_precedes_filters_witness :
    pendingOf c10State 0 = [⟨"z"⟩]
    ∧ pendingOf (sendPendingMessageS plainEnv suppressFenv 0 c10State).2 0 = []
    ∧ (sendPendingMessageS plainEnv suppressFenv 0 c10State).2.delivered = [] := by
  have h := c10_pop_precedes_filters plainEnv suppressFenv 0 ⟨"z"⟩ [] c10State
    (by decide) (fun posts hok q hq => by
      simp only [plainEnv, plainSpec] at hok
      cases hok
      simp at hq)
  exact ⟨by decide, h.1, by decide⟩

/-- Witness for C3: handler 1 throws `boom` while draining; the cycle
returns that very error unswallowed with the wake-up re-armed, and the
next cycle delivers the remaining handler's message. -/
theorem c3_error_rearms_before_propagating_witness :
    (runMessageLoopS c3Env trivFenv c3Start).1 = .error "boom"
    ∧ (runMessageLoopS c3Env trivFenv c3Start).2.frameId = true
    ∧ (runMessageLoopS c3Env trivFenv
        (runMessageLoopS c3Env trivFenv c3Start).2).2.delivered
        = [(1, ⟨"bad"⟩), (2, ⟨"good"⟩)] :=
  ⟨by decide,
   c3_error_rearms_before_propagating c3Env trivFenv c3Start "boom" (by decide),
   by decide⟩

/-- C2 (code bug): in `c2Start` — reached through the public operations
`postMessage(H,m1)`, `postMessage(H,m2)`, `sendPendingMessage(H)` — the
dispatch queue still holds two entries for H but only `m2` pends.  During
the next cycle, processing `m2` posts `m3` re-entrantly; the stale second
queue entry then delivers `m3` within the same cycle, contradicting the
claim (and the source's own comment) that a message posted during a cycle
executes only on the next cycle. -/
theorem c2_reentrant_post_delivered_same_cycle :
    pendingOf c2Start 0 = [⟨"m2"⟩]
    ∧ c2Start.dispatchQueue = [some 0, some 0]
    ∧ (runMessageLoopS c2Env trivFenv c2Start).2.delivered
        = c2Start.delivered ++ [(0, ⟨"m2"⟩), (0, ⟨"m3"⟩)] := by
  refine ⟨by decide, by decide, by decide⟩

/-- C4 (counterexample): in `c4State`, handler 5 heads the dispatch queue
with no registry entry, handler 2 follows with one pending message.  The
cycle does not silently skip handler 5: calling `sendPendingMessage` on
the absent dispatcher throws a TypeError which aborts the cycle, so an
error is raised and handler 2's message is not processed in this cycle —
contradicting the claim that the entry is skipped with no error and the
cycle continues. -/
theorem c4_unknown_handler_not_skipped :
    lookupD c4State.dispatchers 5 = none
    ∧ c4State.dispatchQueue = [some 5, some 2]
    ∧ (runMessageLoopS plainEnv trivFenv c4State).1 = .error "TypeError"
    ∧ (runMessageLoopS plainEnv trivFenv c4State).2.delivered = [] := by
  refine ⟨by decide, by decide, by decide, by decide⟩

/-- C4 (amended): when the entry at the front of the dispatch queue is a
real handler with no registry entry, the cycle raises a TypeError — after
re-arming the wake-up — instead of skipping the entry; the remaining
entries are left for a later cycle.  (Through the public operations such a
state never arises: every queued handler has a registry entry.) -/
theorem c4_unknown_handler_raises (env : HandlerId → HandlerSpec) (fenv : FilterId → FilterSpec)
    (s : SysState) (h : HandlerId) (rest : List (Option HandlerId))
    (hq : s.dispatchQueue = some h :: rest)
    (hl : lookupD s.dispatchers h = none) :
    (runMessageLoopS env fenv s).1 = .error "TypeError"
    ∧ (runMessageLoopS env fenv s).2.frameId = true := by
  have hqne : s.dispatchQueue ≠ [] := by
    rw [hq]
    simp
  unfold runMessageLoopS
  rw [if_neg hqne]
  have hcases : ∃ rest', (sentinelled s).dispatchQueue = some h :: rest'
      ∧ (none : Option HandlerId) ∈ rest' := by
    rcases sentinelled_queue_or s with h1 | h1
    · refine ⟨rest, by rw [h1, hq], ?_⟩
      have hnone := none_mem_sentinelled s
      rw [h1, hq] at hnone
      simpa using hnone
    · exact ⟨rest ++ [none], by rw [h1, hq]; rfl, by simp⟩
  obtain ⟨rest', hq', hmem⟩ := hcases
  have hlen : (sentinelled s).dispatchQueue.length = rest'.length + 1 := by
    rw [hq']
    rfl
  rw [hlen, runLoop_handler hq']
  have hl' : lookupD ({ sentinelled s with dispatchQueue := rest' } : SysState).dispatchers h
      = none := by
    show lookupD (sentinelled s).dispatchers h = none
    rw [sentinelled_dispatchers]
    exact hl
  have hdm : dispatchMessageS env fenv h { sentinelled s with dispatchQueue := rest' }
      = (.error "TypeError",
         wakeUpMessageLoopS { sentinelled s with dispatchQueue := rest' }) := by
    simp only [dispatchMessageS, hl']
  rw [hdm]
  refine ⟨rfl, ?_⟩
  show (wakeUpMessageLoopS { sentinelled s with dispatchQueue := rest' }).frameId = true
  apply wakeUp_frameId_of_ne_nil
  show rest' ≠ []
  intro hc
  rw [hc] at hmem
  simp at hmem

/-- Witness for the amended C4, at the concrete state `c4State`. -/
theorem c4_unknown_handler_raises_witness :
    (runMessageLoopS plainEnv trivFenv c4State).1 = .error "TypeError"
    ∧ (runMessageLoopS plainEnv trivFenv c4State).2.frameId = true :=
  c4_unknown_handler_raises plainEnv trivFenv c4State 5 [some 2] (by decide) (by decide)

/-- C5 (counterexample): with the claim's premise — `compressMessage`
returns true exactly when a pending message of the same type exists — the
nine posts `[one,two,three,one,two,three,one,two,three]` drain to
`[one, two, three]`, not the claimed `[one, two, three, two, two]`. -/
theorem c5_full_compression_counterexample :
    ((runMessageLoopS fullCompressEnv trivFenv
        (postAll fullCompressEnv ninePosts initState)).2.delivered.map (·.2.type))
      = ["one", "two", "three"]
    ∧ ((runMessageLoopS fullCompressEnv trivFenv
        (postAll fullCompressEnv ninePosts initState)).2.delivered.map (·.2.type))
      ≠ ["one", "two", "three", "two", "two"] := by
  refine ⟨by decide, by decide⟩

/-- C5 (amended): for the test suite's compressing handler — whose
`compressMessage` returns true exactly when the posted type is `one` or
`three` and a same-type message pends — the nine posts drain to exactly
`[one, two, three, two, two]` in that order. -/
theorem c5_compression_amended :
    ((runMessageLoopS testCompressEnv trivFenv
        (postAll testCompressEnv ninePosts initState)).2.delivered.map (·.2.type))
      = ["one", "two", "three", "two", "two"] := by
  decide

/-! ### The filter chain: link lookup, live filters, well-formedness -/

theorem lookupChain_of_mem :
    ∀ {l : List (Nat × Option FilterId)} {p : Nat × Option FilterId},
      (l.map (·.1)).Nodup → p ∈ l → lookupChain l p.1 = some p.2 := by
  intro l
  induction l with
  | nil =>
    intro p _ hp
    simp at hp
  | cons q rest ih =>
    intro p hnd hp
    rcases List.mem_cons.mp hp with h1 | h1
    · subst h1
      simp [lookupChain]
    · have hne : q.1 ≠ p.1 := by
        intro hc
        have hmem : p.1 ∈ rest.map (·.1) := List.mem_map.mpr ⟨p, h1, rfl⟩
        rw [← hc] at hmem
        rw [List.map_cons, List.nodup_cons] at hnd
        exact hnd.1 hmem
      rw [List.map_cons, List.nodup_cons] at hnd
      simp only [lookupChain, if_neg hne]
      exact ih hnd.2 h1

theorem lookupChain_mem :
    ∀ {l : List (Nat × Option FilterId)} {n : Nat} {v : Option FilterId},
      lookupChain l n = some v → (n, v) ∈ l := by
  intro l
  induction l with
  | nil =>
    intro n v hl
    simp [lookupChain] at hl
  | cons q rest ih =>
    intro n v hl
    rw [lookupChain] at hl
    split at hl
    · next heq =>
      have hv : q.2 = v := by injection hl
      rw [← heq, ← hv]
      exact List.mem_cons_self q rest
    · exact List.mem_cons_of_mem _ (ih hl)

theorem filterMap_snd_filter_ne (f : FilterId) :
    ∀ l : List (Nat × Option FilterId),
      (l.filter (fun p => p.2 != some f)).filterMap (·.2)
        = (l.filterMap (·.2)).filter (fun g => g != f) := by
  intro l
  induction l with
  | nil => rfl
  | cons q rest ih =>
    rcases q with ⟨n, o⟩
    rcases o with _ | g
    · simp [List.filter_cons, List.filterMap_cons, ih]
    · by_cases hg : g = f
      · subst hg
        simp [List.filter_cons, List.filterMap_cons, ih]
      · have hb : ((some g : Option FilterId) != some f) = true := by simp [hg]
        have hb2 : (g != f) = true := by simp [hg]
        simp [List.filter_cons, List.filterMap_cons, hb, hb2, ih]

theorem nextLink_install (h : HandlerId) (f : FilterId) (s : SysState) :
    (installMessageFilterS h f s).nextLink = s.nextLink + 1 := by
  simp [installMessageFilterS]

theorem chainOf_install_self (h : HandlerId) (f : FilterId) (s : SysState) :
    chainOf (installMessageFilterS h f s) h = (s.nextLink, some f) :: chainOf s h := by
  simp only [installMessageFilterS]
  rw [show ∀ (x : SysState) (n : Nat), chainOf { x with nextLink := n } h = chainOf x h
    from fun x n => rfl]
  rw [chainOf_putDisp_self]
  simp [chainOf]

theorem chainOf_install_ne (h : HandlerId) (f : FilterId) (s : SysState) {h' : HandlerId}
    (hne : h' ≠ h) : chainOf (installMessageFilterS h f s) h' = chainOf s h' := by
  simp only [installMessageFilterS]
  rw [show ∀ (x : SysState) (n : Nat), chainOf { x with nextLink := n } h' = chainOf x h'
    from fun x n => rfl]
  rw [chainOf_putDisp_ne _ _ hne]
  simp

theorem liveChain_install (h : HandlerId) (f : FilterId) (s : SysState) :
    liveChain (installMessageFilterS h f s) h = f :: liveChain s h := by
  rw [liveChain, chainOf_install_self, List.filterMap_cons, liveChain]

theorem liveChain_remove (h : HandlerId) (f : FilterId) (s : SysState) :
    liveChain (removeMessageFilterS h f s) h = (liveChain s h).filter (fun g => g != f) := by
  rw [liveChain, chainOf_remove_self, filterMap_snd_filter_ne, liveChain]

theorem WFc_install (h : HandlerId) (f : FilterId) (s : SysState) (hw : WFc s h) :
    WFc (installMessageFilterS h f s) h := by
  obtain ⟨hnd, hbd⟩ := hw
  constructor
  · rw [chainOf_install_self, List.map_cons, List.nodup_cons]
    refine ⟨?_, hnd⟩
    intro hc
    obtain ⟨p, hp, hpe⟩ := List.mem_map.mp hc
    have := hbd p hp
    omega
  · intro p hp
    rw [chainOf_install_self] at hp
    rw [nextLink_install]
    rcases List.mem_cons.mp hp with h1 | h1
    · rw [h1]
      simp
    · have := hbd p h1
      omega

theorem WFc_remove (h : HandlerId) (f : FilterId) (s : SysState) (hw : WFc s h) :
    WFc (removeMessageFilterS h f s) h := by
  obtain ⟨hnd, hbd⟩ := hw
  constructor
  · rw [chainOf_remove_self]
    exact List.Nodup.sublist (List.Sublist.map _ (List.filter_sublist _)) hnd
  · intro p hp
    rw [chainOf_remove_self] at hp
    rw [remove_nextLink]
    exact hbd p (List.mem_of_mem_filter hp)

theorem lookup_isSome_of_chain_ne {s : SysState} {h : HandlerId}
    (hne : chainOf s h ≠ []) : (lookupD s.dispatchers h).isSome := by
  cases hl : lookupD s.dispatchers h
  · exfalso
    apply hne
    rw [chainOf, dispOf, hl]
    rfl
  · rfl

theorem liveChain_filterStep_subset (fenv : FilterId → FilterSpec) (h : HandlerId)
    (m : Message) (f : FilterId) (s : SysState) :
    ∀ g ∈ liveChain (filterStep fenv h m f s) h, g ∈ liveChain s h := by
  intro g hg
  unfold filterStep at hg
  split at hg
  · rw [liveChain_remove] at hg
    have := List.mem_of_mem_filter hg
    rw [show liveChain { s with filterTrace := s.filterTrace ++ [(f, h, m)] } h
      = liveChain s h from rfl] at this
    exact this
  · rw [show liveChain { s with filterTrace := s.filterTrace ++ [(f, h, m)] } h
      = liveChain s h from rfl] at hg
    exact hg

/-- Walking a passthrough section of the chain (all filters return false,
none self-removes) just records its live filters and continues. -/
theorem runFilters_pass (fenv : FilterId → FilterSpec) (h : HandlerId) (m : Message) :
    ∀ (P : List (Nat × Option FilterId)) (restIds : List Nat) (s : SysState),
      (∀ p ∈ P, lookupChain (chainOf s h) p.1 = some p.2) →
      (∀ f ∈ P.filterMap (·.2),
        (fenv f).result h m = .ok false ∧ (fenv f).removesSelf = false) →
      runFilters fenv h m (P.map (·.1) ++ restIds) s =
        runFilters fenv h m restIds
          { s with filterTrace :=
              s.filterTrace ++ (P.filterMap (·.2)).map (fun f => (f, h, m)) } := by
  intro P
  induction P with
  | nil =>
    intro restIds s _ _
    simp
  | cons q P' ih =>
    intro restIds s hlk hpass
    rcases q with ⟨n, o⟩
    rcases o with _ | f
    · rw [List.map_cons, List.cons_append,
        runFilters_eq_tomb (hlk (n, none) (List.mem_cons_self _ _))]
      have := ih restIds s (fun p hp => hlk p (List.mem_cons_of_mem _ hp))
        (fun g hg => hpass g (by simpa using hg))
      simpa using this
    · rw [List.map_cons, List.cons_append,
        runFilters_eq_live (hlk (n, some f) (List.mem_cons_self _ _))]
      have hres := hpass f (by simp)
      rw [hres.1]
      have hstep : filterStep fenv h m f s
          = { s with filterTrace := s.filterTrace ++ [(f, h, m)] } := by
        unfold filterStep
        rw [if_neg (by rw [hres.2]; exact Bool.false_ne_true)]
      rw [hstep]
      have hrec := ih restIds { s with filterTrace := s.filterTrace ++ [(f, h, m)] }
        (fun p hp => by
          rw [show chainOf { s with filterTrace := s.filterTrace ++ [(f, h, m)] } h
            = chainOf s h from rfl]
          exact hlk p (List.mem_cons_of_mem _ hp))
        (fun g hg => hpass g (by simp [hg]))
      rw [hrec]
      simp

/-- Walking a chain section with no self-removing filter is the pure walk
over its live filters. -/
theorem runFilters_pure (fenv : FilterId → FilterSpec) (h : HandlerId) (m : Message) :
    ∀ (Q : List (Nat × Option FilterId)) (s : SysState),
      (∀ p ∈ Q, lookupChain (chainOf s h) p.1 = some p.2) →
      (∀ f ∈ Q.filterMap (·.2), (fenv f).removesSelf = false) →
      runFilters fenv h m (Q.map (·.1)) s =
        ((pureWalk fenv h m (Q.filterMap (·.2))).1,
         { s with filterTrace := s.filterTrace
             ++ ((pureWalk fenv h m (Q.filterMap (·.2))).2).map (fun f => (f, h, m)) }) := by
  intro Q
  induction Q with
  | nil =>
    intro s _ _
    simp [pureWalk, runFilters_nil]
  | cons q Q' ih =>
    intro s hlk hnr
    rcases q with ⟨n, o⟩
    rcases o with _ | f
    · rw [List.map_cons, runFilters_eq_tomb (hlk (n, none) (List.mem_cons_self _ _))]
      have := ih s (fun p hp => hlk p (List.mem_cons_of_mem _ hp))
        (fun g hg => hnr g (by simpa using hg))
      simpa using this
    · rw [List.map_cons, runFilters_eq_live (hlk (n, some f) (List.mem_cons_self _ _))]
      have hstep : filterStep fenv h m f s
          = { s with filterTrace := s.filterTrace ++ [(f, h, m)] } := by
        unfold filterStep
        rw [if_neg (by rw [hnr f (by simp)]; exact Bool.false_ne_true)]
      rcases hr : (fenv f).result h m with e | b
      · rw [hstep]
        simp [pureWalk, hr, List.filterMap_cons]
      · cases b
        · rw [hstep]
          have hrec := ih { s with filterTrace := s.filterTrace ++ [(f, h, m)] }
            (fun p hp => by
              rw [show chainOf { s with filterTrace := s.filterTrace ++ [(f, h, m)] } h
                = chainOf s h from rfl]
              exact hlk p (List.mem_cons_of_mem _ hp))
            (fun g hg => hnr g (by simp [hg]))
          rw [hrec]
          simp only [List.filterMap_cons]
          simp [pureWalk, hr]
        · rw [hstep]
          simp [pureWalk, hr, List.filterMap_cons]

/-- The invoked filters of a pure walk are an initial segment of the live
chain. -/
theorem pureWalk_take (fenv : FilterId → FilterSpec) (h : HandlerId) (m : Message) :
    ∀ l : List FilterId, ∃ k, (pureWalk fenv h m l).2 = l.take k := by
  intro l
  induction l with
  | nil => exact ⟨0, rfl⟩
  | cons f rest ih =>
    rcases hr : (fenv f).result h m with e | b
    · exact ⟨1, by simp [pureWalk, hr]⟩
    · cases b
      · obtain ⟨k, hk⟩ := ih
        exact ⟨k + 1, by simp [pureWalk, hr, hk]⟩
      · exact ⟨1, by simp [pureWalk, hr]⟩

/-- Every filter a walk invokes was live in the chain when the walk
started. -/
theorem runFilters_trace_in_live (fenv : FilterId → FilterSpec) (h : HandlerId) (m : Message) :
    ∀ (ids : List Nat) (s : SysState),
      ∃ fext, (runFilters fenv h m ids s).2.filterTrace = s.filterTrace ++ fext
        ∧ ∀ t ∈ fext, t.1 ∈ liveChain s h := by
  intro ids
  induction ids with
  | nil =>
    intro s
    exact ⟨[], by simp [runFilters_nil], by simp⟩
  | cons n rest ih =>
    intro s
    rcases hl : lookupChain (chainOf s h) n with _ | fo
    · rw [runFilters_eq_skip hl]
      exact ih s
    · rcases fo with _ | f
      · rw [runFilters_eq_tomb hl]
        exact ih s
      · have hfl : f ∈ liveChain s h := by
          rw [liveChain]
          exact List.mem_filterMap.mpr ⟨(n, some f), lookupChain_mem hl, rfl⟩
        rw [runFilters_eq_live hl]
        rcases hr : (fenv f).result h m with e | b
        · exact ⟨[(f, h, m)], by simp, by intro t ht; simp at ht; simp [ht, hfl]⟩
        · cases b
          · obtain ⟨fext, hfe, hfa⟩ := ih (filterStep fenv h m f s)
            refine ⟨(f, h, m) :: fext, ?_, ?_⟩
            · rw [hfe]
              simp
            · intro t ht
              rcases List.mem_cons.mp ht with h1 | h1
              · rw [h1]
                exact hfl
              · exact liveChain_filterStep_subset fenv h m f s _ (hfa t h1)
          · exact ⟨[(f, h, m)], by simp, by intro t ht; simp at ht; simp [ht, hfl]⟩

/-- Every filter a synchronous send invokes was live for the handler when
the send started. -/
theorem sendMessageS_trace_in_live (env : HandlerId → HandlerSpec) (fenv : FilterId → FilterSpec)
    (h : HandlerId) (m : Message) (s : SysState) :
    ∃ fext, (sendMessageS env fenv h m s).2.filterTrace = s.filterTrace ++ fext
      ∧ ∀ t ∈ fext, t.1 ∈ liveChain s h := by
  simp only [sendMessageS]
  obtain ⟨fext, hfe, hfa⟩ :=
    runFilters_trace_in_live fenv h m ((chainOf (ensureDispatcher s h) h).map (·.1))
      (ensureDispatcher s h)
  have hfa' : ∀ t ∈ fext, t.1 ∈ liveChain s h := by
    intro t ht
    have := hfa t ht
    rw [show liveChain (ensureDispatcher s h) h = liveChain s h from by
      rw [liveChain, chainOf_ensure, liveChain]] at this
    exact this
  rcases hrf : runFilters fenv h m ((chainOf (ensureDispatcher s h) h).map (·.1))
      (ensureDispatcher s h) with ⟨r, s2⟩
  rw [hrf]
  rw [hrf] at hfe
  simp only [ensure_filterTrace] at hfe
  rcases r with e | b
  · exact ⟨fext, by simpa using hfe, hfa'⟩
  · cases b
    · rcases hop : (env h).onProcess m with e | posts
      · exact ⟨fext, by simpa using hfe, hfa'⟩
      · refine ⟨fext, ?_, hfa'⟩
        rw [doPosts_filterTrace]
        simpa using hfe
    · exact ⟨fext, by simpa using hfe, hfa'⟩

theorem indexOf_append_cons {α : Type _} [DecidableEq α] {pfx : List α} {y : α}
    (sfx : List α) (hy : y ∉ pfx) : (pfx ++ y :: sfx).indexOf y = pfx.length := by
  induction pfx with
  | nil => simp
  | cons a rest ih =>
    have hne : y ≠ a := fun hc => hy (by simp [hc])
    have hrest : y ∉ rest := fun hc => hy (List.mem_cons_of_mem _ hc)
    rw [List.cons_append, List.indexOf_cons_ne _ (Ne.symm hne), ih hrest]
    simp

/-- Removing a filter that is not live in a chain section leaves the
section untouched (tombstones are never spliced by a removal). -/
theorem filter_keep_of_not_live {G : FilterId} :
    ∀ {l : List (Nat × Option FilterId)}, G ∉ l.filterMap (·.2) →
      l.filter (fun p => p.2 != some G) = l := by
  intro l
  induction l with
  | nil => intro _; rfl
  | cons q rest ih =>
    intro hG
    have ho : q.2 ≠ some G := by
      intro hc
      exact hG (List.mem_filterMap.mpr ⟨q, List.mem_cons_self _ _, hc⟩)
    have hrest : G ∉ rest.filterMap (·.2) := by
      intro hc
      obtain ⟨p, hp, hpe⟩ := List.mem_filterMap.mp hc
      exact hG (List.mem_filterMap.mpr ⟨p, List.mem_cons_of_mem _ hp, hpe⟩)
    have hb : (q.2 != some G) = true := by simpa using ho
    rw [List.filter_cons, if_pos hb, ih hrest]

/-- Splicing a filter out of a chain in which it is live exactly once drops
exactly its link. -/
theorem chain_filter_drop (P Q : List (Nat × Option FilterId)) (gid : Nat) (G : FilterId)
    (hGP : G ∉ P.filterMap (·.2)) (hGQ : G ∉ Q.filterMap (·.2)) :
    (P ++ (gid, some G) :: Q).filter (fun p => p.2 != some G) = P ++ Q := by
  rw [List.filter_append, filter_keep_of_not_live hGP, List.filter_cons]
  rw [if_neg (by simp)]
  rw [filter_keep_of_not_live hGQ]

/-- Characterization of one full filter walk in which exactly one filter,
sitting in the middle of the chain, removes itself: the section ahead of it
runs in order, the self-remover is invoked once and its link spliced out,
and (when it passes) the rest of the walk is the pure walk of the remaining
live filters. -/
theorem runFilters_self_removal (fenv : FilterId → FilterSpec) (h : HandlerId) (m : Message)
    (P Q : List (Nat × Option FilterId)) (gid : Nat) (G : FilterId) (s : SysState)
    (hch : chainOf s h = P ++ (gid, some G) :: Q)
    (hnd : ((chainOf s h).map (·.1)).Nodup)
    (hGP : G ∉ P.filterMap (·.2)) (hGQ : G ∉ Q.filterMap (·.2))
    (hP : ∀ f ∈ P.filterMap (·.2),
      (fenv f).result h m = .ok false ∧ (fenv f).removesSelf = false)
    (hQ : ∀ f ∈ Q.filterMap (·.2), (fenv f).removesSelf = false)
    (hG : (fenv G).removesSelf = true) {r : Except Err Bool} {s2 : SysState}
    (hrw : runFilters fenv h m ((chainOf s h).map (·.1)) s = (r, s2)) :
    r = (match (fenv G).result h m with
         | .error e => .error e
         | .ok true => .ok true
         | .ok false => (pureWalk fenv h m (Q.filterMap (·.2))).1)
    ∧ s2.filterTrace
        = s.filterTrace ++ (P.filterMap (·.2)).map (fun g => (g, h, m)) ++ [(G, h, m)]
          ++ (if (fenv G).result h m = Except.ok false
              then ((pureWalk fenv h m (Q.filterMap (·.2))).2).map (fun g => (g, h, m))
              else [])
    ∧ chainOf s2 h = P ++ Q
    ∧ s2.delivered = s.delivered := by
  have hsnap : (chainOf s h).map (·.1) = P.map (·.1) ++ (gid :: Q.map (·.1)) := by
    rw [hch]
    simp
  have hlkP : ∀ p ∈ P, lookupChain (chainOf s h) p.1 = some p.2 := fun p hp =>
    lookupChain_of_mem hnd (by rw [hch]; exact List.mem_append_left _ hp)
  rw [hsnap, runFilters_pass fenv h m P (gid :: Q.map (·.1)) s hlkP hP] at hrw
  have hlkG0 : lookupChain (chainOf s h) gid = some (some G) :=
    lookupChain_of_mem hnd
      (p := ((gid, some G) : Nat × Option FilterId))
      (by rw [hch]; exact List.mem_append_right _ (List.mem_cons_self _ _))
  set sP : SysState :=
    { s with filterTrace :=
        s.filterTrace ++ (P.filterMap (·.2)).map (fun f => (f, h, m)) } with hsP
  rw [runFilters_eq_live (show lookupChain (chainOf sP h) gid = some (some G)
      from hlkG0)] at hrw
  have hchG : chainOf (filterStep fenv h m G sP) h = P ++ Q := by
    rw [chainOf_filterStep_self, if_pos hG]
    rw [show chainOf sP h = chainOf s h from rfl, hch]
    exact chain_filter_drop P Q gid G hGP hGQ
  have htrG : (filterStep fenv h m G sP).filterTrace
      = s.filterTrace ++ (P.filterMap (·.2)).map (fun g => (g, h, m)) ++ [(G, h, m)] := by
    rw [filterStep_filterTrace, hsP]
  have hdlG : (filterStep fenv h m G sP).delivered = s.delivered := by
    rw [filterStep_delivered, hsP]
  rcases hrG : (fenv G).result h m with e | b
  · rw [hrG] at hrw
    have hrw' : (Except.error e, filterStep fenv h m G sP) = (r, s2) := hrw
    injection hrw' with hr hs
    subst hs
    subst hr
    refine ⟨rfl, ?_, hchG, hdlG⟩
    rw [if_neg (by simp), List.append_nil]
    exact htrG
  · cases b
    · rw [hrG] at hrw
      have hrw' : runFilters fenv h m (Q.map (·.1)) (filterStep fenv h m G sP)
          = (r, s2) := hrw
      have hndPQ : ((P ++ Q).map (·.1)).Nodup := by
        rw [hch] at hnd
        refine List.Nodup.sublist ?_ hnd
        exact List.Sublist.map _ (List.Sublist.append_left (List.sublist_cons_self _ _) P)
      have hlkQ : ∀ p ∈ Q, lookupChain (chainOf (filterStep fenv h m G sP) h)
          p.1 = some p.2 := by
        intro p hp
        rw [hchG]
        exact lookupChain_of_mem hndPQ (List.mem_append_right _ hp)
      rw [runFilters_pure fenv h m Q _ hlkQ hQ] at hrw'
      injection hrw' with hr hs
      subst hs
      subst hr
      refine ⟨rfl, ?_, hchG, hdlG⟩
      simp [htrG]
    · rw [hrG] at hrw
      have hrw' : (Except.ok true, filterStep fenv h m G sP) = (r, s2) := hrw
      injection hrw' with hr hs
      subst hs
      subst hr
      refine ⟨rfl, ?_, hchG, hdlG⟩
      rw [if_neg (by simp), List.append_nil]
      exact htrG

/-- C6: if, during the filter run for an in-flight message to a handler, a
filter removes itself from inside its own `filterMessage` (the self-remover
`G`, sitting between a passthrough section `P` and the rest of the chain
`Q`), the operation is safe: the filters ahead of it have run in their
normal order, `G` is invoked exactly once and its link is spliced out of
the chain (no null filter is ever invoked and `G` is no longer live), the
subsequent live filters still run as the pure walk of `Q`, and the
in-flight message is delivered exactly when no filter suppressed it. -/
theorem c6_self_removal_safe (env : HandlerId → HandlerSpec) (fenv : FilterId → FilterSpec)
    (h : HandlerId) (m : Message) (s : SysState)
    (P Q : List (Nat × Option FilterId)) (gid : Nat) (G : FilterId)
    (hch : chainOf s h = P ++ (gid, some G) :: Q)
    (hnd : ((chainOf s h).map (·.1)).Nodup)
    (hGP : G ∉ P.filterMap (·.2)) (hGQ : G ∉ Q.filterMap (·.2))
    (hP : ∀ f ∈ P.filterMap (·.2),
      (fenv f).result h m = .ok false ∧ (fenv f).removesSelf = false)
    (hQ : ∀ f ∈ Q.filterMap (·.2), (fenv f).removesSelf = false)
    (hG : (fenv G).removesSelf = true) :
    chainOf (sendMessageS env fenv h m s).2 h = P ++ Q
    ∧ G ∉ liveChain (sendMessageS env fenv h m s).2 h
    ∧ (sendMessageS env fenv h m s).2.filterTrace
        = s.filterTrace ++ (P.filterMap (·.2)).map (fun g => (g, h, m)) ++ [(G, h, m)]
          ++ (if (fenv G).result h m = Except.ok false
              then ((pureWalk fenv h m (Q.filterMap (·.2))).2).map (fun g => (g, h, m))
              else [])
    ∧ (sendMessageS env fenv h m s).2.delivered
        = s.delivered
          ++ (if (fenv G).result h m = Except.ok false
                ∧ (pureWalk fenv h m (Q.filterMap (·.2))).1 = Except.ok false
              then [(h, m)] else []) := by
  have hcne : chainOf s h ≠ [] := by rw [hch]; simp
  have hens : ensureDispatcher s h = s :=
    ensureDispatcher_of_isSome (lookup_isSome_of_chain_ne hcne)
  have hGPQ : G ∉ (P ++ Q).filterMap (·.2) := by
    intro hc
    rw [List.filterMap_append, List.mem_append] at hc
    rcases hc with hc | hc
    · exact hGP hc
    · exact hGQ hc
  rcases hrw : runFilters fenv h m ((chainOf s h).map (·.1)) s with ⟨r, s2⟩
  obtain ⟨h1, h2, h3, h4⟩ :=
    runFilters_self_removal fenv h m P Q gid G s hch hnd hGP hGQ hP hQ hG hrw
  have hlive2 : G ∉ liveChain s2 h := by
    simp only [liveChain, h3]
    exact hGPQ
  rcases hrG : (fenv G).result h m with e | b
  · rw [hrG] at h1 h2
    have h1' : r = Except.error e := h1
    subst h1'
    have hsend : sendMessageS env fenv h m s = (Except.error e, s2) := by
      simp only [sendMessageS, hens, hrw]
    rw [hsend]
    exact ⟨h3, hlive2, h2, by simp [h4]⟩
  · cases b
    · rw [hrG] at h1 h2
      have h1' : r = (pureWalk fenv h m (Q.filterMap (·.2))).1 := h1
      subst h1'
      rcases hpwE : (pureWalk fenv h m (Q.filterMap (·.2))).1 with e2 | b2
      · rw [hpwE] at hrw
        have hsend : sendMessageS env fenv h m s = (Except.error e2, s2) := by
          simp only [sendMessageS, hens, hrw]
        rw [hsend]
        exact ⟨h3, hlive2, h2, by simp [h4, hpwE]⟩
      · cases b2
        · rw [hpwE] at hrw
          rcases hop : (env h).onProcess m with e3 | posts
          · have hsend : sendMessageS env fenv h m s
                = (Except.error e3, { s2 with delivered := s2.delivered ++ [(h, m)] }) := by
              simp only [sendMessageS, hens, hrw, hop]
            rw [hsend]
            exact ⟨h3, hlive2, h2, by simp [h4, hpwE]⟩
          · have hsend : sendMessageS env fenv h m s
                = (Except.ok (),
                   doPosts env posts { s2 with delivered := s2.delivered ++ [(h, m)] }) := by
              simp only [sendMessageS, hens, hrw, hop]
            rw [hsend]
            have hc6 : chainOf (doPosts env posts
                { s2 with delivered := s2.delivered ++ [(h, m)] }) h = P ++ Q := by
              rw [doPosts_chainOf]
              exact h3
            refine ⟨hc6, ?_, ?_, ?_⟩
            · simp only [liveChain, hc6]
              exact hGPQ
            · rw [doPosts_filterTrace]
              exact h2
            · rw [doPosts_delivered]
              simp [h4, hpwE]
        · rw [hpwE] at hrw
          have hsend : sendMessageS env fenv h m s = (Except.ok (), s2) := by
            simp only [sendMessageS, hens, hrw]
          rw [hsend]
          exact ⟨h3, hlive2, h2, by simp [h4, hpwE]⟩
    · rw [hrG] at h1 h2
      have h1' : r = Except.ok true := h1
      subst h1'
      have hsend : sendMessageS env fenv h m s = (Except.ok (), s2) := by
        simp only [sendMessageS, hens, hrw]
      rw [hsend]
      exact ⟨h3, hlive2, h2, by simp [h4]⟩

/-- Witness for C6 at the reference scenario: filters 1, 2, 3 installed on
handler 0 (walk order 3, 2, 1), filter 2 removing itself; the send invokes
3, 2, 1 in order, splices filter 2 out, and delivers the message. -/
theorem c6_self_removal_safe_witness :
    chainOf (sendMessageS plainEnv c6Fenv 0 ⟨"one"⟩ c6State).2 0 = [(2, some 3), (0, some 1)]
    ∧ 2 ∉ liveChain (sendMessageS plainEnv c6Fenv 0 ⟨"one"⟩ c6State).2 0
    ∧ (sendMessageS plainEnv c6Fenv 0 ⟨"one"⟩ c6State).2.filterTrace
        = [(3, 0, ⟨"one"⟩), (2, 0, ⟨"one"⟩), (1, 0, ⟨"one"⟩)]
    ∧ (sendMessageS plainEnv c6Fenv 0 ⟨"one"⟩ c6State).2.delivered = [(0, ⟨"one"⟩)] := by
  obtain ⟨h1, h2, h3, h4⟩ := c6_self_removal_safe plainEnv c6Fenv 0 ⟨"one"⟩ c6State
    [(2, some 3)] [(0, some 1)] 1 2 (by decide) (by decide) (by decide) (by decide)
    (by decide) (by decide) (by decide)
  refine ⟨?_, h2, ?_, ?_⟩
  · rw [h1]
    rfl
  · rw [h3]
    decide
  · rw [h4]
    decide

/-- Any sequence of install/remove operations preserves well-formedness of
a handler's filter chain. -/
theorem applyFilterOps_WFc (h : HandlerId) :
    ∀ (ops : List FilterOp) (s : SysState), WFc s h → WFc (applyFilterOps h ops s) h := by
  intro ops
  induction ops with
  | nil =>
    intro s hw
    exact hw
  | cons op rest ih =>
    intro s hw
    refine ih (applyFilterOp h op s) ?_
    cases op with
    | ins f => exact WFc_install h f s hw
    | rem f => exact WFc_remove h f s hw

/-- Operations avoiding two installed filters preserve the shape of the
live chain around them: the more recently installed one stays ahead of the
other, and neither gains an occurrence ahead of its original link. -/
theorem applyFilterOps_decomp (h : HandlerId) (F1 F2 : FilterId) :
    ∀ (ops : List FilterOp), (∀ op ∈ ops, FilterOp.fid op ≠ F1 ∧ FilterOp.fid op ≠ F2) →
    ∀ s : SysState,
      (∃ l1 l2 l3, liveChain s h = l1 ++ F2 :: l2 ++ F1 :: l3
        ∧ F2 ∉ l1 ∧ F1 ∉ l1 ∧ F1 ∉ l2) →
      ∃ l1 l2 l3, liveChain (applyFilterOps h ops s) h = l1 ++ F2 :: l2 ++ F1 :: l3
        ∧ F2 ∉ l1 ∧ F1 ∉ l1 ∧ F1 ∉ l2 := by
  intro ops
  induction ops with
  | nil =>
    intro _ s hd
    exact hd
  | cons op rest ih =>
    intro hops s hd
    have hop := hops op (List.mem_cons_self _ _)
    refine ih (fun o ho => hops o (List.mem_cons_of_mem _ ho)) (applyFilterOp h op s) ?_
    obtain ⟨l1, l2, l3, hL, h2n, h1n1, h1n2⟩ := hd
    cases op with
    | ins f =>
      refine ⟨f :: l1, l2, l3, ?_, ?_, ?_, h1n2⟩
      · show liveChain (installMessageFilterS h f s) h = _
        rw [liveChain_install, hL]
        simp
      · intro hc
        rcases List.mem_cons.mp hc with hc1 | hc1
        · exact hop.2 hc1.symm
        · exact h2n hc1
      · intro hc
        rcases List.mem_cons.mp hc with hc1 | hc1
        · exact hop.1 hc1.symm
        · exact h1n1 hc1
    | rem f =>
      have hF2f : (F2 != f) = true := by
        simp only [bne_iff_ne, ne_eq]
        exact fun hc => hop.2 hc.symm
      have hF1f : (F1 != f) = true := by
        simp only [bne_iff_ne, ne_eq]
        exact fun hc => hop.1 hc.symm
      refine ⟨l1.filter (fun g => g != f), l2.filter (fun g => g != f),
        l3.filter (fun g => g != f), ?_, ?_, ?_, ?_⟩
      · show liveChain (removeMessageFilterS h f s) h = _
        rw [liveChain_remove, hL]
        simp [List.filter_append, List.filter_cons, hF2f, hF1f]
      · intro hc
        exact h2n (List.mem_of_mem_filter hc)
      · intro hc
        exact h1n1 (List.mem_of_mem_filter hc)
      · intro hc
        exact h1n2 (List.mem_of_mem_filter hc)

/-- When no live filter of the handler removes itself, a synchronous send
extends the filter trace by exactly the pure walk of the live chain,
whatever the walk's outcome and whatever the handler then does. -/
theorem sendMessageS_pure_trace (env : HandlerId → HandlerSpec) (fenv : FilterId → FilterSpec)
    (h : HandlerId) (m : Message) (s : SysState)
    (hlk : ∀ p ∈ chainOf s h, lookupChain (chainOf s h) p.1 = some p.2)
    (hnr : ∀ f ∈ (chainOf s h).filterMap (·.2), (fenv f).removesSelf = false)
    (hens : ensureDispatcher s h = s) :
    (sendMessageS env fenv h m s).2.filterTrace
      = s.filterTrace
        ++ ((pureWalk fenv h m ((chainOf s h).filterMap (·.2))).2).map (fun g => (g, h, m)) := by
  simp only [sendMessageS, hens]
  rw [runFilters_pure fenv h m (chainOf s h) s hlk hnr]
  rcases hpw : (pureWalk fenv h m ((chainOf s h).filterMap (·.2))).1 with e | b
  · simp [hpw]
  · cases b
    · rcases hop : (env h).onProcess m with e2 | posts
      · simp [hpw, hop]
      · simp [hpw, hop, doPosts_filterTrace]
    · simp [hpw]

/-- Membership in a take means the element occurs in the underlying list
with its first occurrence inside the taken section, at the same index. -/
theorem indexOf_take_facts {α : Type _} [DecidableEq α] :
    ∀ (L : List α) (k : Nat) (y : α), y ∈ L.take k →
      y ∈ L ∧ L.indexOf y < k ∧ (L.take k).indexOf y = L.indexOf y := by
  intro L
  induction L with
  | nil =>
    intro k y hy
    simp at hy
  | cons a rest ih =>
    intro k y hy
    cases k with
    | zero => simp at hy
    | succ j =>
      rw [List.take_succ_cons] at hy
      by_cases hya : y = a
      · subst hya
        exact ⟨List.mem_cons_self _ _, by simp, by simp⟩
      · have hy' : y ∈ rest.take j := by
          rcases List.mem_cons.mp hy with h1 | h1
          · exact absurd h1 hya
          · exact h1
        obtain ⟨hm, hlt, heq⟩ := ih j y hy'
        refine ⟨List.mem_cons_of_mem _ hm, ?_, ?_⟩
        · rw [List.indexOf_cons_ne _ (Ne.symm hya)]
          omega
        · rw [List.take_succ_cons, List.indexOf_cons_ne _ (Ne.symm hya),
            List.indexOf_cons_ne _ (Ne.symm hya), heq]

/-- An element whose first occurrence lies inside the taken section is a
member of the take. -/
theorem mem_take_of_indexOf_lt {α : Type _} [DecidableEq α] :
    ∀ (L : List α) (k : Nat) (y : α), y ∈ L → L.indexOf y < k → y ∈ L.take k := by
  intro L
  induction L with
  | nil =>
    intro k y hy _
    simp at hy
  | cons a rest ih =>
    intro k y hy hlt
    by_cases hya : y = a
    · subst hya
      cases k with
      | zero => simp at hlt
      | succ j =>
        rw [List.take_succ_cons]
        exact List.mem_cons_self _ _
    · rcases List.mem_cons.mp hy with h1 | h1
      · exact absurd h1 hya
      · rw [List.indexOf_cons_ne _ (Ne.symm hya)] at hlt
        cases k with
        | zero => omega
        | succ j =>
          rw [List.take_succ_cons]
          exact List.mem_cons_of_mem _ (ih j y h1 (by omega))

/-- In a take of a list shaped `l1 ++ F2 :: l2 ++ F1 :: l3` whose first F2
precedes its first F1, the presence of F1 forces the presence of F2 at a
strictly smaller first index. -/
theorem take_decomp_mru {F1 F2 : FilterId} {l1 l2 l3 : List FilterId} (hne : F1 ≠ F2)
    (h2n : F2 ∉ l1) (h1n1 : F1 ∉ l1) (h1n2 : F1 ∉ l2) (k : Nat)
    (hmem : F1 ∈ (l1 ++ F2 :: l2 ++ F1 :: l3).take k) :
    F2 ∈ (l1 ++ F2 :: l2 ++ F1 :: l3).take k
    ∧ ((l1 ++ F2 :: l2 ++ F1 :: l3).take k).indexOf F2
        < ((l1 ++ F2 :: l2 ++ F1 :: l3).take k).indexOf F1 := by
  have hre : l1 ++ F2 :: l2 ++ F1 :: l3 = l1 ++ F2 :: (l2 ++ F1 :: l3) := by
    simp
  have hi2 : (l1 ++ F2 :: l2 ++ F1 :: l3).indexOf F2 = l1.length := by
    rw [hre]
    exact indexOf_append_cons _ h2n
  have h1n12 : F1 ∉ l1 ++ F2 :: l2 := by
    intro hc
    rcases List.mem_append.mp hc with hc1 | hc1
    · exact h1n1 hc1
    · rcases List.mem_cons.mp hc1 with hc2 | hc2
      · exact hne hc2
      · exact h1n2 hc2
  have hi1 : (l1 ++ F2 :: l2 ++ F1 :: l3).indexOf F1 = l1.length + l2.length + 1 := by
    rw [indexOf_append_cons _ h1n12, List.length_append, List.length_cons]
    omega
  obtain ⟨hm1, hlt1, heq1⟩ := indexOf_take_facts _ k F1 hmem
  have hmem2 : F2 ∈ (l1 ++ F2 :: l2 ++ F1 :: l3).take k := by
    apply mem_take_of_indexOf_lt
    · exact List.mem_append_left _ (List.mem_append_right _ (List.mem_cons_self _ _))
    · rw [hi2]
      rw [hi1] at hlt1
      omega
  obtain ⟨hm2, hlt2, heq2⟩ := indexOf_take_facts _ k F2 hmem2
  refine ⟨hmem2, ?_⟩
  rw [heq1, heq2, hi1, hi2]
  omega

/-- C7: filters run most-recently-installed-first. After installing F1 and
then F2 for a handler and applying any further install/remove operations on
other filters (with no live filter removing itself), whenever a send
invokes F1 it has already invoked F2: F2 appears in the invocation order at
a strictly smaller first index than F1. -/
theorem c7_mru_filter_order (env : HandlerId → HandlerSpec) (fenv : FilterId → FilterSpec)
    (h : HandlerId) (m : Message) (s0 : SysState) (F1 F2 : FilterId) (ops : List FilterOp)
    (hWF : WFc s0 h) (hne : F1 ≠ F2)
    (hops : ∀ op ∈ ops, FilterOp.fid op ≠ F1 ∧ FilterOp.fid op ≠ F2)
    (hnr : ∀ f ∈ (chainOf (mruState h F1 F2 ops s0) h).filterMap (·.2),
      (fenv f).removesSelf = false)
    (hmem : F1 ∈ filterRunOrder env fenv h m (mruState h F1 F2 ops s0)) :
    F2 ∈ filterRunOrder env fenv h m (mruState h F1 F2 ops s0)
    ∧ (filterRunOrder env fenv h m (mruState h F1 F2 ops s0)).indexOf F2
        < (filterRunOrder env fenv h m (mruState h F1 F2 ops s0)).indexOf F1 := by
  obtain ⟨l1, l2, l3, hL, h2n, h1n1, h1n2⟩ :=
    applyFilterOps_decomp h F1 F2 ops hops
      (installMessageFilterS h F2 (installMessageFilterS h F1 s0))
      ⟨[], [], liveChain s0 h, by rw [liveChain_install, liveChain_install]; simp,
        by simp, by simp, by simp⟩
  have hWFF : WFc (mruState h F1 F2 ops s0) h :=
    applyFilterOps_WFc h ops _ (WFc_install h F2 _ (WFc_install h F1 _ hWF))
  have hLfm : (chainOf (mruState h F1 F2 ops s0) h).filterMap (·.2)
      = l1 ++ F2 :: l2 ++ F1 :: l3 := hL
  have hcne : chainOf (mruState h F1 F2 ops s0) h ≠ [] := by
    intro hc
    have hl0 : (chainOf (mruState h F1 F2 ops s0) h).filterMap (·.2) = [] := by
      rw [hc]
      rfl
    rw [hLfm] at hl0
    simp at hl0
  have hens : ensureDispatcher (mruState h F1 F2 ops s0) h = mruState h F1 F2 ops s0 :=
    ensureDispatcher_of_isSome (lookup_isSome_of_chain_ne hcne)
  have hlk : ∀ p ∈ chainOf (mruState h F1 F2 ops s0) h,
      lookupChain (chainOf (mruState h F1 F2 ops s0) h) p.1 = some p.2 :=
    fun p hp => lookupChain_of_mem hWFF.1 hp
  have htr := sendMessageS_pure_trace env fenv h m (mruState h F1 F2 ops s0) hlk hnr hens
  have htr2 : filterRunOrder env fenv h m (mruState h F1 F2 ops s0)
      = (pureWalk fenv h m ((chainOf (mruState h F1 F2 ops s0) h).filterMap (·.2))).2 := by
    simp only [filterRunOrder]
    rw [htr, List.drop_left, List.map_map]
    exact List.map_id' _
  obtain ⟨k, hk⟩ :=
    pureWalk_take fenv h m ((chainOf (mruState h F1 F2 ops s0) h).filterMap (·.2))
  rw [htr2, hk, hLfm] at hmem ⊢
  exact take_decomp_mru hne h2n h1n1 h1n2 k hmem

/-- Witness for C7: install filter 1 then filter 2 on handler 0, install
filter 3 and remove it again; the send invokes 2 before 1. -/
theorem c7_mru_filter_order_witness :
    2 ∈ filterRunOrder plainEnv c7Fenv 0 ⟨"x"⟩ (mruState 0 1 2 c7Ops initState)
    ∧ (filterRunOrder plainEnv c7Fenv 0 ⟨"x"⟩ (mruState 0 1 2 c7Ops initState)).indexOf 2
        < (filterRunOrder plainEnv c7Fenv 0 ⟨"x"⟩ (mruState 0 1 2 c7Ops initState)).indexOf 1 :=
  c7_mru_filter_order plainEnv c7Fenv 0 ⟨"x"⟩ initState 1 2 c7Ops
    (by constructor <;> decide) (by decide) (by decide) (by decide) (by decide)

end Phosphor
